import Mathlib

/-!
Shallow embedding of the study-planning core of this repository.

Sources embedded here:
- the scheduling engine `generateSubjectPlan` and its helpers
  (`ensureStudyDay`, `removeSubjectTargets`, `assignBlock`) from the
  planner module;
- the selectors `getOrCreateStudyDay` and `computeStreak`;
- the state action `assignLectureToDay`;
- the `scheduleRevisionPass` routine of the revision-planner view.

Modelling conventions:
- Calendar dates (`YYYY-MM-DD` strings manipulated through day-level dayjs
  arithmetic in the source) are embedded as integers counting days; string
  comparison (`localeCompare`) on such date strings coincides with integer
  order, and `dayjs.add/subtract(n, 'day')`/`startOf('day')` coincide with
  integer `+ n`/`- n`/identity at day granularity.  Dates are assumed valid,
  so `cutoff.isValid()` is always true.
- JavaScript numbers used for minutes are embedded as rationals (`ℚ`); the
  only division in scope, `estimatedMinutes / 2`, is exact in both.
- Optional numeric caps (`maxLecturesPerDay ?? Infinity`) are embedded as
  `Option` values: `none` means unbounded, and each comparison against
  `Infinity` in the source becomes the corresponding `Option` match.
- `state` mutation in the source only ever rewrites the `studyDays` array;
  helpers here therefore pass the `studyDays` list where the source passes
  the whole state, and the single state update is applied at the end.
- The JavaScript stable `Array.sort` is embedded as `List.insertionSort`,
  which is a stable sort computing the same function.
-/

namespace Study

/-- Lecture status enum of `types.ts`. -/
inductive LectureStatus
  | notStarted
  | inProgress
  | done
  | needsRevision
deriving DecidableEq, Repr

/-- Revision trigger enum of `types.ts`. -/
inductive RevisionTrigger
  | afterFinish
  | beforeExam
deriving DecidableEq, Repr

/-- Lecture record (fields relevant to the planning core). -/
structure Lecture where
  id : String
  subjectId : String
  order : Int
  status : LectureStatus
  estimatedMinutes : ℚ
  tags : List String
deriving DecidableEq, Repr

/-- PlannedLecture record; the optional `isRevision` flag of the source is a
`Bool` here (`undefined` is falsy in every use site). -/
structure PlannedLecture where
  subjectId : String
  lectureId : String
  block : Option String := none
  isRevision : Bool := false
deriving DecidableEq, Repr

/-- StudyDay record; optional `isRestDay` is a `Bool` (falsy when absent) and
optional `targetMinutes` stays an `Option`. -/
structure StudyDay where
  date : Int
  isRestDay : Bool := false
  targetMinutes : Option ℚ := none
  completedMinutes : ℚ := 0
  targetLectures : List PlannedLecture := []
  completedLectures : List PlannedLecture := []
deriving DecidableEq, Repr

/-- Subject record (fields relevant to the planning core). -/
structure Subject where
  id : String
  examDate : Int
  reservedRevisionDays : Nat
deriving DecidableEq, Repr

/-- Streak thresholds of `StudySettings.streakMinLecturesOrMinutes`. -/
structure StreakThresholds where
  minLectures : Nat
  minMinutes : ℚ
deriving DecidableEq, Repr

/-- Settings fields consumed by the planning core. -/
structure StudySettings where
  maxLecturesPerDay : Option Nat := none
  maxMinutesPerDay : Option ℚ := none
  streakMinLecturesOrMinutes : StreakThresholds := ⟨0, 0⟩
deriving DecidableEq, Repr

/-- Top-level state snapshot (fields relevant to the planning core). -/
structure StudyState where
  subjects : List Subject
  lectures : List Lecture
  studyDays : List StudyDay
  settings : StudySettings
deriving DecidableEq, Repr

/-- RevisionPass config of `types.ts` (fields consumed by
`scheduleRevisionPass`; `includeStatuses` is embedded at the supertype
`LectureStatus` since the source only tests membership). -/
structure RevisionPass where
  trigger : RevisionTrigger
  offsetDaysBeforeExam : Option Nat := none
  includeTags : Option (List String) := none
  includeStatuses : Option (List LectureStatus) := none
  spreadOverDays : Option Nat := none
deriving DecidableEq, Repr

/-- PlannerChange record of `types.ts`. -/
structure PlannerChange where
  subjectId : String
  previousAverage : ℚ
  newAverage : ℚ
  overloaded : Bool
deriving DecidableEq, Repr

/-- PlannerResult record of the planner module. -/
structure PlannerResult where
  state : StudyState
  change : PlannerChange
  warnings : List String
deriving DecidableEq, Repr

/-- Ordering used for the stable sort of lectures by `order`
(`(a, b) => a.order - b.order`). -/
def lectureLE (a b : Lecture) : Prop := a.order ≤ b.order

instance : DecidableRel lectureLE := fun a b => Int.decLe a.order b.order

/-- Ordering used for the calendar sort by date
(`(a, b) => a.date.localeCompare(b.date)`). -/
def dayLE (a b : StudyDay) : Prop := a.date ≤ b.date

instance : DecidableRel dayLE := fun a b => Int.decLe a.date b.date

instance : IsTotal StudyDay dayLE := ⟨fun a b => Int.le_total a.date b.date⟩

instance : IsTrans StudyDay dayLE := ⟨fun _ _ _ h h2 => le_trans h h2⟩

/-- Block labels cycled through by the planner. -/
def blocks : List String := ["morning", "afternoon", "evening"]

/-- Block label for the `index`-th new assignment of a day
(`assignBlock` of the planner). -/
def assignBlock (index : Nat) : String :=
  if h : index < blocks.length then blocks.get ⟨index, h⟩
  else "slot-" ++ toString (index + 1)

/-- First study day carrying the given date, as looked up throughout the
source with `studyDays.find((day) => day.date === date)`. -/
def findDay (days : List StudyDay) (date : Int) : Option StudyDay :=
  days.find? (fun day => day.date == date)

/-- Freshly created study day record, as both `ensureStudyDay` and
`getOrCreateStudyDay` build it. -/
def freshDay (date : Int) : StudyDay :=
  { date := date, completedMinutes := 0, targetLectures := [], completedLectures := [] }

/-- Planner helper `ensureStudyDay`: return the existing day for `date` or
append a fresh empty one.  The source threads the whole state but only
rewrites `state.studyDays`, embedded here as the list it rewrites. -/
def ensureStudyDay (days : List StudyDay) (date : Int) : List StudyDay × StudyDay :=
  match findDay days date with
  | some existing => (days, existing)
  | none =>
    let newDay : StudyDay :=
      { date := date, completedMinutes := 0, targetLectures := [], completedLectures := [] }
    (days ++ [newDay], newDay)

/-- Day-range construction loop of the planner: walk `cursor` from `today`
to `endDay` inclusive, ensuring every date exists, and collect the day
records in range order. -/
def buildDays (days0 : List StudyDay) (today endDay : Int) : List StudyDay × List StudyDay :=
  (List.range (endDay - today + 1).toNat).foldl
    (fun (acc : List StudyDay × List StudyDay) (i : Nat) =>
      let p := ensureStudyDay acc.1 (today + (i : Int))
      (p.1, acc.2 ++ [p.2]))
    (days0, [])

/-- Planner helper `removeSubjectTargets`: drop the subject's non-revision
target entries from a day. -/
def removeSubjectTargets (day : StudyDay) (subjectId : String) : StudyDay :=
  { day with
    targetLectures :=
      day.targetLectures.filter (fun t => t.subjectId != subjectId || t.isRevision) }

/-- Apply `f` to the first day carrying `date`, mirroring in-place mutation
of the object returned by a first-match lookup. -/
def modifyDay (days : List StudyDay) (date : Int) (f : StudyDay → StudyDay) : List StudyDay :=
  match days with
  | [] => []
  | d :: ds => if d.date == date then f d :: ds else d :: modifyDay ds date f

/-- Removal pass of the planner: `planningDays.forEach((day) =>
removeSubjectTargets(day, subjectId))`, with the mutated objects located by
their (pairwise distinct) dates. -/
def stripSubject (days : List StudyDay) (dates : List Int) (subjectId : String) : List StudyDay :=
  dates.foldl (fun ds d => modifyDay ds d (fun day => removeSubjectTargets day subjectId)) days

/-- Running per-day accumulator of the greedy loop: the source keeps two maps
`dayAssignments` and `dayMinutes` keyed by the (pairwise distinct) planning
dates; here both live in one record per planning day, in planning order. -/
structure DayAcc where
  date : Int
  assigned : List PlannedLecture
  minutes : ℚ
deriving DecidableEq, Repr

/-- Initialization of the greedy maps: empty assignment list and
`day.targetMinutes ?? 0` starting minutes for every planning day. -/
def initAccs (days : List StudyDay) (dates : List Int) : List DayAcc :=
  dates.map (fun d =>
    let day := (findDay days d).getD { date := d }
    { date := d, assigned := [], minutes := day.targetMinutes.getD 0 })

/-- Lecture-count cap test `assignments.length < maxLectures`
(`?? Infinity` becomes the `none` case). -/
def capOkLectures (maxL : Option Nat) (count : Nat) : Bool :=
  match maxL with
  | none => true
  | some l => count < l

/-- Minute cap test `minutes + lecture.estimatedMinutes <= maxMinutes`
(`?? Infinity` becomes the `none` case). -/
def capOkMinutes (maxM : Option ℚ) (minutes est : ℚ) : Bool :=
  match maxM with
  | none => true
  | some m => minutes + est ≤ m

/-- Replace the element at position `i` (out-of-range positions untouched). -/
def modifyIdx {α : Type} (f : α → α) : List α → Nat → List α
  | [], _ => []
  | a :: as, 0 => f a :: as
  | a :: as, n + 1 => a :: modifyIdx f as n

/-- One iteration of the greedy assignment loop.  The source initializes
`assignedDay` to `planningDays[0]` and breaks on the first day within both
caps, so when no day qualifies the lecture stays on the first planning day;
the subsequent `if (!assignedDay)` fallback to the last planning day is
unreachable because `assignedDay` always holds a day object.  `overloaded`
is then raised only by the `assignments.length >= maxLectures` test on the
chosen day. -/
def assignStep (sid : String) (maxL : Option Nat) (maxM : Option ℚ)
    (st : List DayAcc × Bool) (lec : Lecture) : List DayAcc × Bool :=
  let accs := st.1
  let idx := (accs.findIdx? (fun acc =>
    capOkLectures maxL acc.assigned.length &&
      capOkMinutes maxM acc.minutes lec.estimatedMinutes)).getD 0
  let chosen := accs.getD idx { date := 0, assigned := [], minutes := 0 }
  let overloaded := st.2 ||
    (match maxL with
     | none => false
     | some l => decide (chosen.assigned.length ≥ l))
  let planned : PlannedLecture :=
    { subjectId := sid, lectureId := lec.id,
      block := some (assignBlock chosen.assigned.length) }
  let accs := modifyIdx
    (fun acc =>
      { acc with
        assigned := acc.assigned ++ [planned],
        minutes := acc.minutes + lec.estimatedMinutes })
    accs idx
  (accs, overloaded)

/-- Greedy loop of the planner over the pending lectures in order. -/
def assignLectures (sid : String) (maxL : Option Nat) (maxM : Option ℚ)
    (lectures : List Lecture) (accs0 : List DayAcc) : List DayAcc × Bool :=
  lectures.foldl (assignStep sid maxL maxM) (accs0, false)

/-- Merge step of the planner for one planning day: keep the other-subject
and revision targets, append this run's assignments, set `targetMinutes`
when anything was assigned, and filter `completedLectures` against the ids
assigned in this run.  The source's `dayMinutes.get(day.date) ?? reduce`
fallback is dead because the map holds every planning date; the running
minutes of the accumulator are used directly. -/
def mergeDay (sid : String) (acc : DayAcc) (day : StudyDay) : StudyDay :=
  let assignments := acc.assigned
  let plannedIds := assignments.map (fun item => item.lectureId)
  let day := { day with
    targetLectures :=
      day.targetLectures.filter (fun t => t.subjectId != sid || t.isRevision) ++ assignments }
  let day := if assignments.length > 0 then { day with targetMinutes := some acc.minutes } else day
  if day.completedLectures.length != 0 then
    { day with
      completedLectures := day.completedLectures.filter
        (fun e => plannedIds.contains e.lectureId || e.isRevision) }
  else day

/-- Merge pass of the planner over all planning days. -/
def applyPlan (days : List StudyDay) (sid : String) (accs : List DayAcc) : List StudyDay :=
  accs.foldl (fun ds acc => modifyDay ds acc.date (mergeDay sid acc)) days

/-- Pending lectures of a subject, sorted stably by `order`. -/
def availableFor (s : StudyState) (subjectId : String) : List Lecture :=
  List.insertionSort lectureLE
    (s.lectures.filter (fun l => l.subjectId == subjectId && l.status != LectureStatus.done))

/-- Previous scheduling average: total of the subject's non-revision target
entries over the days carrying at least one, divided by the number of such
days (0 when there are none). -/
def previousAverageFor (s : StudyState) (subjectId : String) : ℚ :=
  let prev := s.studyDays.foldl
    (fun (p : Nat × Nat) day =>
      let count := (day.targetLectures.filter
        (fun t => t.subjectId == subjectId && !t.isRevision)).length
      if count > 0 then (p.1 + count, p.2 + 1) else p)
    (0, 0)
  if prev.2 > 0 then (prev.1 : ℚ) / (prev.2 : ℚ) else 0

/-- Intermediate values of one planning run (the planner body after the
not-found and no-pending early returns). -/
structure PlanCore where
  warnings : List String
  endDay : Int
  ensuredDays : List StudyDay
  rangeDays : List StudyDay
  planningDays : List StudyDay
  planningDates : List Int
  accs : List DayAcc
  overloaded : Bool
  newAverage : ℚ
  finalDays : List StudyDay
deriving DecidableEq, Repr

/-- Planner pipeline for a resolved subject with a non-empty pending list,
following the source line by line: cutoff and warning, day range, rest-day
filtering, removal pass, greedy assignment, merge pass, new average, and the
final calendar sort. -/
def planCore (today : Int) (s : StudyState) (subject : Subject) (sid : String)
    (availableLectures : List Lecture) : PlanCore :=
  let cutoff : Int := subject.examDate - (subject.reservedRevisionDays : Int)
  let warnings : List String :=
    if cutoff < today then ["Exam is very close. The planner may overload upcoming days."]
    else []
  let endDay : Int :=
    if today < cutoff then cutoff
    else today + max ((availableLectures.length : Int) - 1) 0
  let built := buildDays s.studyDays today endDay
  let ensuredDays := built.1
  let rangeDays := built.2
  let activeDays := rangeDays.filter (fun day => !day.isRestDay)
  let warnings :=
    if activeDays.isEmpty then
      warnings ++ ["All days before the exam are marked as rest days. Using them anyway for planning."]
    else warnings
  let planningDays := if activeDays.isEmpty then rangeDays else activeDays
  let planningDates := planningDays.map (fun d => d.date)
  let strippedDays := stripSubject ensuredDays planningDates sid
  let accs0 := initAccs strippedDays planningDates
  let res := assignLectures sid s.settings.maxLecturesPerDay s.settings.maxMinutesPerDay
    availableLectures accs0
  let finalUnsorted := applyPlan strippedDays sid res.1
  { warnings := warnings,
    endDay := endDay,
    ensuredDays := ensuredDays,
    rangeDays := rangeDays,
    planningDays := planningDays,
    planningDates := planningDates,
    accs := res.1,
    overloaded := res.2,
    newAverage := (availableLectures.length : ℚ) / (max 1 planningDays.length : ℚ),
    finalDays := List.insertionSort dayLE finalUnsorted }

/-- Scheduling engine `generateSubjectPlan(state, subjectId)`; the `today`
read once from the clock at the start of the run is a parameter. -/
def generateSubjectPlan (today : Int) (state : StudyState) (subjectId : String) :
    Except String PlannerResult :=
  match state.subjects.find? (fun s => s.id == subjectId) with
  | none => Except.error "Subject not found"
  | some subject =>
    let availableLectures := availableFor state subjectId
    let previousAverage := previousAverageFor state subjectId
    if availableLectures.isEmpty then
      Except.ok
        { state := state,
          change :=
            { subjectId := subjectId, previousAverage := previousAverage,
              newAverage := 0, overloaded := false },
          warnings := [] }
    else
      let c := planCore today state subject subjectId availableLectures
      Except.ok
        { state := { state with studyDays := c.finalDays },
          change :=
            { subjectId := subjectId, previousAverage := previousAverage,
              newAverage := c.newAverage, overloaded := c.overloaded },
          warnings := c.warnings }

/-- Intermediate planning values of `generateSubjectPlan` when it reaches the
pipeline (subject resolved, pending list non-empty). -/
def planCoreOpt (today : Int) (s : StudyState) (sid : String) : Option PlanCore :=
  match s.subjects.find? (fun x => x.id == sid) with
  | none => none
  | some subject =>
    let a := availableFor s sid
    if a.isEmpty then none else some (planCore today s subject sid a)

/-- Resulting state of a planning run, defaulting to the input state when the
run fails. -/
def planStateD (today : Int) (s : StudyState) (sid : String) : StudyState :=
  match generateSubjectPlan today s sid with
  | Except.ok r => r.state
  | Except.error _ => s

/-- Reported new average of a planning run, defaulting to 0 on failure. -/
def planAverageD (today : Int) (s : StudyState) (sid : String) : ℚ :=
  match generateSubjectPlan today s sid with
  | Except.ok r => r.change.newAverage
  | Except.error _ => 0

/-- Selector `getOrCreateStudyDay` of the state module: identical behaviour
to the planner's `ensureStudyDay`, at state level. -/
def getOrCreateStudyDay (state : StudyState) (date : Int) : StudyState × StudyDay :=
  match findDay state.studyDays date with
  | some day => (state, day)
  | none =>
    let day : StudyDay :=
      { date := date, completedMinutes := 0, targetLectures := [], completedLectures := [] }
    ({ state with studyDays := state.studyDays ++ [day] }, day)

/-- State action `assignLectureToDay(date, planned, estimatedMinutes)`:
get-or-create the day, append `planned` unless an entry with the same
`lectureId` already exists, bump `targetMinutes` by the given minutes (or
the lecture's estimate, or 30) for new entries, and write the day back over
every slot carrying its date. -/
def assignLectureToDay (state : StudyState) (date : Int) (planned : PlannedLecture)
    (estimatedMinutes : Option ℚ) : StudyState :=
  let p := getOrCreateStudyDay state date
  let prev := p.1
  let day := p.2
  let existing := day.targetLectures.find? (fun item => item.lectureId == planned.lectureId)
  let targetLectures :=
    if existing.isSome then day.targetLectures else day.targetLectures ++ [planned]
  let minutes := estimatedMinutes.getD
    (((prev.lectures.find? (fun lecture => lecture.id == planned.lectureId)).map
        (fun lecture => lecture.estimatedMinutes)).getD 30)
  let targetMinutes := day.targetMinutes.getD 0 + (if existing.isSome then 0 else minutes)
  let updatedDay := { day with targetLectures := targetLectures, targetMinutes := some targetMinutes }
  { prev with
    studyDays := prev.studyDays.map (fun item => if item.date == date then updatedDay else item) }

/-- Revision scheduling routine of the revision-planner view.  The selected
subject id plays the role of the component's `selectedSubjectId`; the second
component of the result is the user-facing message, `none` when the routine
returned before setting one (the source's message strings are Arabic UI
text, abstracted here to short English markers with identical structure). -/
def scheduleRevisionPass (state : StudyState) (today : Int) (selectedSubjectId : String)
    (pass : RevisionPass) : StudyState × Option String :=
  match state.subjects.find? (fun item => item.id == selectedSubjectId) with
  | none => (state, none)
  | some subject =>
    let lectures := state.lectures.filter (fun lecture => lecture.subjectId == subject.id)
    let eligibleStatuses :=
      pass.includeStatuses.getD [LectureStatus.needsRevision, LectureStatus.done]
    let filtered := lectures.filter (fun lecture =>
      let matchesStatus := eligibleStatuses.contains lecture.status
      let matchesTags :=
        match pass.includeTags with
        | some tags =>
          if tags.length > 0 then tags.any (fun tag => lecture.tags.contains tag) else true
        | none => true
      matchesStatus && matchesTags)
    if filtered.isEmpty then (state, some "no matching lectures")
    else
      let startDate : Int :=
        match pass.trigger with
        | RevisionTrigger.afterFinish => today + 1
        | RevisionTrigger.beforeExam =>
          subject.examDate - ((pass.offsetDaysBeforeExam.getD 3 : Nat) : Int)
      let spreadDays := pass.spreadOverDays.getD (min filtered.length 3)
      let cursor := startDate
      let state2 := filtered.enum.foldl
        (fun st p =>
          let index := p.1
          let lecture := p.2
          let dayOffset := index % spreadDays
          let targetDate := cursor + (dayOffset : Int)
          let planned : PlannedLecture :=
            { subjectId := subject.id, lectureId := lecture.id,
              block := some ("revision-" ++ toString (dayOffset + 1)),
              isRevision := true }
          assignLectureToDay st targetDate planned
            (some (max (lecture.estimatedMinutes / 2) 20)))
        state
      (state2, some ("scheduled over " ++ toString spreadDays ++ " day(s) starting day "
        ++ toString startDate))

/-- Streak qualification of one day: completed-lecture count or completed
minutes reaches its threshold. -/
def dayQualifies (settings : StudySettings) (day : StudyDay) : Bool :=
  decide (day.completedLectures.length ≥ settings.streakMinLecturesOrMinutes.minLectures) ||
    decide (day.completedMinutes ≥ settings.streakMinLecturesOrMinutes.minMinutes)

/-- Qualification at a date: some study day carries the date and qualifies. -/
def qualAt (state : StudyState) (date : Int) : Bool :=
  match findDay state.studyDays date with
  | none => false
  | some day => dayQualifies state.settings day

/-- Backward walk of `computeStreak`.  The source's `while (true)` loop
terminates because every counted iteration consumes a distinct date present
in `studyDays`; the fuel argument makes that bound explicit and is never
exhausted at the bound chosen in `computeStreak`. -/
def computeStreakAux (state : StudyState) : Int → Nat → Nat
  | _, 0 => 0
  | cursor, fuel + 1 =>
    match findDay state.studyDays cursor with
    | none => 0
    | some day =>
      if dayQualifies state.settings day then
        1 + computeStreakAux state (cursor - 1) fuel
      else 0

/-- Streak calculator `computeStreak(state)` with the clock's `today` as a
parameter. -/
def computeStreak (state : StudyState) (today : Int) : Nat :=
  computeStreakAux state today (state.studyDays.length + 1)

/-! Concrete states used to settle individual claims. -/

/-- State with a single pending 1000-minute lecture, caps of 5 lectures and
100 minutes per day, and a three-day planning window (exam in two days, no
reserved revision days). -/
def c1State : StudyState :=
  { subjects := [{ id := "A", examDate := 2, reservedRevisionDays := 0 }],
    lectures := [{ id := "l1", subjectId := "A", order := 1, status := LectureStatus.notStarted,
                   estimatedMinutes := 1000, tags := [] }],
    studyDays := [],
    settings := { maxLecturesPerDay := some 5, maxMinutesPerDay := some 100,
                  streakMinLecturesOrMinutes := ⟨1, 30⟩ } }

/-- State with the exam today, no reserved revision days, five pending
45-minute lectures and unbounded caps. -/
def c2State : StudyState :=
  { subjects := [{ id := "A", examDate := 0, reservedRevisionDays := 0 }],
    lectures := (List.range 5).map (fun i =>
      { id := "l" ++ toString (i + 1), subjectId := "A", order := ((i : Int) + 1),
        status := LectureStatus.notStarted, estimatedMinutes := 45, tags := [] }),
    studyDays := [],
    settings := { streakMinLecturesOrMinutes := ⟨1, 30⟩ } }

/-- State with two pending lectures of 10 and 1000 minutes, caps of 10
lectures and 100 minutes per day, and a three-day planning window. -/
def c3State : StudyState :=
  { subjects := [{ id := "A", examDate := 2, reservedRevisionDays := 0 }],
    lectures := [{ id := "a", subjectId := "A", order := 1, status := LectureStatus.notStarted,
                   estimatedMinutes := 10, tags := [] },
                 { id := "b", subjectId := "A", order := 2, status := LectureStatus.notStarted,
                   estimatedMinutes := 1000, tags := [] }],
    studyDays := [],
    settings := { maxLecturesPerDay := some 10, maxMinutesPerDay := some 100,
                  streakMinLecturesOrMinutes := ⟨1, 30⟩ } }

/-- Three identical short lectures used to witness the amended capacity
statement. -/
def c3wLectures : List Lecture :=
  [{ id := "w1", subjectId := "A", order := 1, status := LectureStatus.notStarted,
     estimatedMinutes := 10, tags := [] },
   { id := "w2", subjectId := "A", order := 2, status := LectureStatus.notStarted,
     estimatedMinutes := 10, tags := [] },
   { id := "w3", subjectId := "A", order := 3, status := LectureStatus.notStarted,
     estimatedMinutes := 10, tags := [] }]

/-- State with one pending 60-minute lecture, a 100-minute cap and a two-day
planning window. -/
def c4State : StudyState :=
  { subjects := [{ id := "A", examDate := 1, reservedRevisionDays := 0 }],
    lectures := [{ id := "L", subjectId := "A", order := 1, status := LectureStatus.notStarted,
                   estimatedMinutes := 60, tags := [] }],
    studyDays := [],
    settings := { maxMinutesPerDay := some 100, streakMinLecturesOrMinutes := ⟨1, 30⟩ } }

/-- Day 0 record carrying another subject's target entry together with its
completed record. -/
def c5Day : StudyDay :=
  { date := 0,
    targetLectures := [{ subjectId := "B", lectureId := "lx" }],
    completedLectures := [{ subjectId := "B", lectureId := "lx" }] }

/-- State where day 0 carries another subject's target entry together with
its completed record, while subject `A` has one pending lecture. -/
def c5State : StudyState :=
  { subjects := [{ id := "A", examDate := 1, reservedRevisionDays := 0 }],
    lectures := [{ id := "a1", subjectId := "A", order := 1, status := LectureStatus.notStarted,
                   estimatedMinutes := 10, tags := [] }],
    studyDays := [c5Day],
    settings := { streakMinLecturesOrMinutes := ⟨1, 30⟩ } }

/-- Trivial PlanCore value used only as a default for projections. -/
def emptyCore : PlanCore :=
  { warnings := [], endDay := 0, ensuredDays := [], rangeDays := [], planningDays := [],
    planningDates := [], accs := [], overloaded := false, newAverage := 0, finalDays := [] }

/-- State whose only study day sits at date 10. -/
def c6State : StudyState :=
  { subjects := [], lectures := [],
    studyDays := [{ date := 10 }],
    settings := { streakMinLecturesOrMinutes := ⟨1, 30⟩ } }

/-- Small plannable state used to witness the amended sortedness statement. -/
def c6wState : StudyState :=
  { subjects := [{ id := "A", examDate := 1, reservedRevisionDays := 0 }],
    lectures := [{ id := "l1", subjectId := "A", order := 1, status := LectureStatus.notStarted,
                   estimatedMinutes := 45, tags := [] }],
    studyDays := [{ date := 3 }, { date := 1 }],
    settings := { streakMinLecturesOrMinutes := ⟨1, 30⟩ } }

/-- State with one subject, one done lecture eligible for revision, and a
calendar day carrying another subject's non-revision entry. -/
def c8State : StudyState :=
  { subjects := [{ id := "A", examDate := 10, reservedRevisionDays := 0 }],
    lectures := [{ id := "r1", subjectId := "A", order := 1, status := LectureStatus.done,
                   estimatedMinutes := 40, tags := [] }],
    studyDays := [{ date := 1, targetLectures := [{ subjectId := "B", lectureId := "q" }] }],
    settings := { streakMinLecturesOrMinutes := ⟨1, 30⟩ } }

/-- Revision pass used with `c8State` (trigger after finishing, defaults). -/
def c8Pass : RevisionPass := { trigger := RevisionTrigger.afterFinish }

/-- State with no subjects at all. -/
def c7State : StudyState :=
  { subjects := [], lectures := [], studyDays := [],
    settings := { streakMinLecturesOrMinutes := ⟨1, 30⟩ } }

/-- Simplest revision pass (trigger after finishing, all defaults). -/
def c7Pass : RevisionPass := { trigger := RevisionTrigger.afterFinish }

/-- State whose day 0 already targets lectureId `L` through a different
subject's revision entry, with `targetMinutes` absent. -/
def c10State : StudyState :=
  { subjects := [], lectures := [],
    studyDays := [{ date := 0,
                    targetLectures := [{ subjectId := "B", lectureId := "L",
                                         isRevision := true }] }],
    settings := { streakMinLecturesOrMinutes := ⟨1, 30⟩ } }

/-- Date and rest-day flag of a study day, the only calendar fields that feed
the planning-day selection of a run. -/
def pairRD (day : StudyDay) : Int × Bool := (day.date, day.isRestDay)

/-- Date and assignment list of a greedy accumulator, the only fields that
feed the day selection (when the minute cap is unset) and the merge of target
lectures. -/
def projDA (a : DayAcc) : Int × List PlannedLecture := (a.date, a.assigned)

/-! Claim theorems. -/

/-- C1: on `c1State` no planning day satisfies the minute cap for the single
pending lecture, yet the engine assigns it to the FIRST planning day (day 0)
and reports `overloaded = false`; the claimed fallback to the last planning
day (day 2) with `overloaded = true` does not happen.  The source contains
exactly that fallback in its `if (!assignedDay)` branch, but the branch is
unreachable because `assignedDay` is initialized to `planningDays[0]`. -/
theorem C1_divergence :
    (generateSubjectPlan 0 c1State "A").toOption.map (fun r =>
      (r.change.overloaded,
       (findDay r.state.studyDays 0).map (fun d => d.targetLectures.map (fun t => t.lectureId)),
       (findDay r.state.studyDays 2).map (fun d => d.targetLectures))) =
      some (false, some ["l1"], some []) := by
  with_unfolding_all rfl

/-- C2 counterexample: with the exam today, zero reserved revision days,
five pending lectures and unbounded caps, the run emits NO warning (the
warning requires cutoff strictly before today), builds a five-date fallback
window, and returns `overloaded = false` — contradicting the claimed
warning, 1-day window and `overloaded = true`. -/
theorem C2_counterexample :
    (generateSubjectPlan 0 c2State "A").toOption.map (fun r =>
      (r.warnings, r.change.overloaded, r.state.studyDays.length)) =
      some ([], false, 5) := by
  with_unfolding_all rfl

/-- C2 amended: for a subject whose exam is today with zero reserved
revision days and five pending lectures under unbounded caps, the run emits
no warning, creates the fallback window of `max(pendingCount - 1, 0) + 1 = 5`
dates starting today, assigns all five lectures to today with blocks
morning, afternoon, evening, slot-4, slot-5, and returns
`overloaded = false` with `newAverage = 1`. -/
theorem C2_amended :
    (generateSubjectPlan 0 c2State "A").toOption.map (fun r =>
      (r.warnings, r.change.overloaded, r.change.newAverage,
       r.state.studyDays.map (fun d =>
         (d.date, d.targetLectures.map (fun t => (t.lectureId, t.block)))))) =
      some ([], false, 1,
        [(0, [("l1", some "morning"), ("l2", some "afternoon"), ("l3", some "evening"),
              ("l4", some "slot-4"), ("l5", some "slot-5")]),
         (1, []), (2, []), (3, []), (4, [])]) := by
  with_unfolding_all rfl

/-- C3 counterexample: `c3State` satisfies the claimed fit hypothesis
(2 pending lectures × minimum estimate 10 fits in 3 planning days × caps
10 lectures / 100 minutes), yet after the run day 0 carries 1010 target
minutes, exceeding the 100-minute cap, while `overloaded = false`. -/
theorem C3_counterexample :
    (2 * 10 ≤ 3 * 100 ∧ 2 ≤ 3 * 10) ∧
      (generateSubjectPlan 0 c3State "A").toOption.map (fun r =>
        (r.change.overloaded, (findDay r.state.studyDays 0).map (fun d => d.targetMinutes))) =
        some (false, some (some 1010)) ∧
      ¬ ((1010 : ℚ) ≤ 100) := by
  refine ⟨⟨by norm_num, by norm_num⟩, by with_unfolding_all rfl, by norm_num⟩

/-- C4 counterexample: planning `c4State` twice with the same `today` moves
the single lecture from day 0 (first run) to day 1 (second run), because the
first run's `targetMinutes` persist into the second run's minute accounting;
the day-to-lecture assignment is not reproduced. -/
theorem C4_counterexample :
    ((generateSubjectPlan 0 c4State "A").toOption.bind (fun r1 =>
      (generateSubjectPlan 0 r1.state "A").toOption.map (fun r2 =>
        ((findDay r1.state.studyDays 0).map (fun d => d.targetLectures.map (fun t => t.lectureId)),
         (findDay r2.state.studyDays 0).map (fun d => d.targetLectures.map (fun t => t.lectureId)),
         (findDay r2.state.studyDays 1).map (fun d => d.targetLectures.map (fun t => t.lectureId)))))) =
      some (some ["L"], some [], some ["L"]) := by
  with_unfolding_all rfl

/-- C5 counterexample: planning subject `A` over `c5State` keeps subject
`B`'s target entry `lx` in day 0's `targetLectures`, yet drops `B`'s
completed record for `lx` (not revision-flagged), because the completion
filter only keeps lectureIds assigned in THIS run — contradicting the
claimed retention of completed entries whose lectureIds remain targeted. -/
theorem C5_counterexample :
    (generateSubjectPlan 0 c5State "A").toOption.map (fun r =>
      (findDay r.state.studyDays 0).map (fun d =>
        (d.targetLectures.map (fun t => (t.subjectId, t.lectureId, t.isRevision)),
         d.completedLectures))) =
      some (some ([("B", "lx", false), ("A", "a1", false)], [])) := by
  with_unfolding_all rfl

/-- C6 counterexample: assigning a lecture to the fresh date 5 while date 10
already exists appends the new day at the end, leaving the calendar in the
unsorted order [10, 5]. -/
theorem C6_counterexample :
    (assignLectureToDay c6State 5 { subjectId := "A", lectureId := "x" } none).studyDays.map
        (fun d => d.date) = [10, 5] ∧
      ¬ List.Sorted (· ≤ ·) ([10, 5] : List Int) := by
  refine ⟨by with_unfolding_all rfl, ?_⟩
  intro h
  have h5 := List.rel_of_sorted_cons h 5 (by simp)
  omega

/-- C7 counterexample: with no subject resolving, `scheduleRevisionPass`
returns silently — unchanged state and NO message at all (so no NotFound
signal) — while `generateSubjectPlan` does fail with "Subject not found". -/
theorem C7_counterexample :
    scheduleRevisionPass c7State 0 "missing" c7Pass = (c7State, none) ∧
      generateSubjectPlan 0 c7State "missing" = Except.error "Subject not found" :=
  ⟨rfl, rfl⟩

/-- C7 amended: for every state and unresolvable subjectId,
`generateSubjectPlan` fails immediately with "Subject not found" and
`scheduleRevisionPass` returns with the state completely unchanged but
without any signal (it produces no message); neither operation performs any
partial mutation. -/
theorem C7_amended (s : StudyState) (today : Int) (sid : String) (pass : RevisionPass)
    (h : s.subjects.find? (fun x => x.id == sid) = none) :
    generateSubjectPlan today s sid = Except.error "Subject not found" ∧
      scheduleRevisionPass s today sid pass = (s, none) := by
  constructor
  · unfold generateSubjectPlan
    rw [h]
  · unfold scheduleRevisionPass
    rw [h]

/-- C7 witness: the amended statement holds at the concrete empty state. -/
theorem C7_amended_witness :
    generateSubjectPlan 3 c7State "missing" = Except.error "Subject not found" ∧
      scheduleRevisionPass c7State 3 "missing" c7Pass = (c7State, none) :=
  C7_amended c7State 3 "missing" c7Pass rfl

/-- C10 counterexample: day 0's `targetMinutes` is absent before the call;
assigning lectureId `L` — already targeted by a different subject's
revision entry — leaves `targetLectures` unchanged as claimed, but
materializes `targetMinutes` as an explicit 0 rather than leaving it
absent. -/
theorem C10_counterexample :
    c10State.studyDays.map (fun d => d.targetMinutes) = [none] ∧
      (assignLectureToDay c10State 0 { subjectId := "A", lectureId := "L" } none).studyDays.map
          (fun d => (d.targetLectures.length, d.targetMinutes)) = [(1, some 0)] := by
  exact ⟨rfl, by with_unfolding_all rfl⟩


/-! Helper lemmas. -/

theorem findDay_map_replace (days : List StudyDay) (date : Int) (u : StudyDay)
    (hu : (u.date == date) = true) (d0 : StudyDay) (h : findDay days date = some d0) :
    findDay (days.map (fun item => if item.date == date then u else item)) date = some u := by
  induction days with
  | nil => simp [findDay] at h
  | cons d ds ih =>
    rw [findDay, List.find?_cons] at h
    rcases hb : (d.date == date) with _ | _
    · rw [hb] at h
      simp only [List.map_cons, findDay, List.find?_cons, hb]
      simp only [Bool.false_eq_true, if_false, hb]
      exact ih h
    · simp only [List.map_cons, findDay, List.find?_cons, hb, if_true, hu]

theorem map_replace_of_absent (days : List StudyDay) (date : Int) (u : StudyDay)
    (h : findDay days date = none) :
    days.map (fun item => if item.date == date then u else item) = days := by
  induction days with
  | nil => rfl
  | cons d ds ih =>
    rw [findDay, List.find?_cons] at h
    rcases hb : (d.date == date) with _ | _
    · rw [hb] at h
      simp only [List.map_cons, hb, Bool.false_eq_true, if_false]
      rw [ih h]
    · rw [hb] at h
      simp at h

theorem findDay_append_right (days : List StudyDay) (date : Int) (u : StudyDay)
    (hu : (u.date == date) = true) (h : findDay days date = none) :
    findDay (days ++ [u]) date = some u := by
  rw [findDay, List.find?_append]
  rw [findDay] at h
  rw [h]
  simp [hu]

theorem modifyIdx_mem {α : Type} (f : α → α) :
    ∀ (l : List α) (i : Nat) (x : α), x ∈ modifyIdx f l i →
      x ∈ l ∨ ∃ h : i < l.length, x = f (l.get ⟨i, h⟩) := by
  intro l
  induction l with
  | nil => intro i x hx; simp [modifyIdx] at hx
  | cons a as ih =>
    intro i x hx
    cases i with
    | zero =>
      rcases List.mem_cons.mp hx with hx | hx
      · exact Or.inr ⟨by simp, hx⟩
      · exact Or.inl (List.mem_cons_of_mem a hx)
    | succ n =>
      rcases List.mem_cons.mp hx with hx | hx
      · exact Or.inl (by simp [hx])
      · rcases ih n x hx with h | ⟨hn, hfx⟩
        · exact Or.inl (List.mem_cons_of_mem a h)
        · exact Or.inr ⟨by simpa using Nat.succ_lt_succ hn, hfx⟩

theorem assignStep_counts (sid : String) (L : Nat) (maxM : Option ℚ) (accs : List DayAcc)
    (lec : Lecture) (hinit : ∀ acc ∈ accs, acc.assigned.length ≤ L)
    (hflag : (assignStep sid (some L) maxM (accs, false) lec).2 = false) :
    ∀ acc ∈ (assignStep sid (some L) maxM (accs, false) lec).1, acc.assigned.length ≤ L := by
  unfold assignStep at hflag ⊢
  simp only [Bool.false_or] at hflag ⊢
  intro acc hacc
  rcases modifyIdx_mem _ accs _ acc hacc with h | ⟨hlt, hfx⟩
  · exact hinit acc h
  · have hchosen := of_decide_eq_false hflag
    rw [List.getD_eq_getElem _ _ hlt] at hchosen
    rw [hfx]
    simp only [List.get_eq_getElem, List.length_append, List.length_cons, List.length_nil]
    omega

theorem assignFold_flag_true (sid : String) (maxL : Option Nat) (maxM : Option ℚ) :
    ∀ (lectures : List Lecture) (accs : List DayAcc),
      (lectures.foldl (assignStep sid maxL maxM) (accs, true)).2 = true := by
  intro lectures
  induction lectures with
  | nil => intro accs; rfl
  | cons lec rest ih =>
    intro accs
    rw [List.foldl_cons]
    have hstep : assignStep sid maxL maxM (accs, true) lec =
        ((assignStep sid maxL maxM (accs, true) lec).1, true) := by
      unfold assignStep
      simp
    rw [hstep]
    exact ih _

theorem assignFold_counts (sid : String) (L : Nat) (maxM : Option ℚ) :
    ∀ (lectures : List Lecture) (accs : List DayAcc),
      (∀ acc ∈ accs, acc.assigned.length ≤ L) →
      (lectures.foldl (assignStep sid (some L) maxM) (accs, false)).2 = false →
      ∀ acc ∈ (lectures.foldl (assignStep sid (some L) maxM) (accs, false)).1,
        acc.assigned.length ≤ L := by
  intro lectures
  induction lectures with
  | nil => intro accs hinit _ acc hacc; exact hinit acc hacc
  | cons lec rest ih =>
    intro accs hinit hflag
    rw [List.foldl_cons] at hflag ⊢
    have hpair : assignStep sid (some L) maxM (accs, false) lec =
        ((assignStep sid (some L) maxM (accs, false) lec).1,
         (assignStep sid (some L) maxM (accs, false) lec).2) := rfl
    rcases hb : (assignStep sid (some L) maxM (accs, false) lec).2 with _ | _
    · rw [hpair, hb] at hflag ⊢
      exact ih _ (assignStep_counts sid L maxM accs lec hinit hb) hflag
    · rw [hpair, hb] at hflag
      rw [assignFold_flag_true] at hflag
      exact absurd hflag (by simp)

/-- C6 amended: whenever `generateSubjectPlan` resolves its subject and has
pending lectures to assign, the resulting `studyDays` collection is sorted
ascending by date (the planner ends with a full calendar sort); the other
day-creating operations append fresh days at the end without sorting, as the
C6 counterexample shows for `assignLectureToDay`. -/
theorem C6_amended (today : Int) (s : StudyState) (sid : String)
    (hres : (s.subjects.find? (fun x => x.id == sid)).isSome = true)
    (hne : (availableFor s sid).isEmpty = false) :
    List.Sorted (· ≤ ·) ((planStateD today s sid).studyDays.map (fun d => d.date)) := by
  rcases Option.isSome_iff_exists.mp hres with ⟨subject, hsub⟩
  have hsorted : List.Sorted dayLE
      (planCore today s subject sid (availableFor s sid)).finalDays := by
    show List.Sorted dayLE (List.insertionSort dayLE _)
    exact List.sorted_insertionSort dayLE _
  have hstate : planStateD today s sid =
      { s with studyDays := (planCore today s subject sid (availableFor s sid)).finalDays } := by
    unfold planStateD generateSubjectPlan
    rw [hsub]
    simp only [hne, Bool.false_eq_true, if_false]
  rw [hstate]
  have hp : List.Pairwise dayLE
      ((planCore today s subject sid (availableFor s sid)).finalDays) := hsorted
  have hmap : List.Pairwise (fun a b : Int => a ≤ b)
      (((planCore today s subject sid (availableFor s sid)).finalDays).map
        (fun d : StudyDay => d.date)) :=
    List.Pairwise.map (fun d : StudyDay => d.date) (fun a b hab => hab) hp
  exact hmap

/-- C6 witness: the amended sortedness statement at a concrete state whose
calendar holds days 3 and 1 in unsorted-prone order. -/
theorem C6_amended_witness :
    List.Sorted (· ≤ ·) ((planStateD 0 c6wState "A").studyDays.map (fun d => d.date)) :=
  C6_amended 0 c6wState "A" (by decide) (by decide)

/-- C3 amended: when `maxLecturesPerDay` is finite and the greedy run over
the planner's freshly initialized per-day accumulators reports
`overloaded = false`, no planning day's count of newly assigned lectures
exceeds the cap.  The minute cap offers no such guarantee: in the C3
counterexample a day's minutes exceed the cap while `overloaded = false`. -/
theorem C3_amended (sid : String) (L : Nat) (maxM : Option ℚ) (lectures : List Lecture)
    (days : List StudyDay) (dates : List Int)
    (h : (assignLectures sid (some L) maxM lectures (initAccs days dates)).2 = false) :
    ∀ acc ∈ (assignLectures sid (some L) maxM lectures (initAccs days dates)).1,
      acc.assigned.length ≤ L := by
  refine assignFold_counts sid L maxM lectures (initAccs days dates) ?_ h
  intro acc hacc
  rcases List.mem_map.mp hacc with ⟨d, _, hd⟩
  rw [← hd]
  simp

/-- C3 witness: the amended statement at a concrete greedy run (three
10-minute lectures, cap of 2 lectures per day, two planning days). -/
theorem C3_amended_witness :
    (assignLectures "A" (some 2) none c3wLectures (initAccs [] [0, 1])).2 = false ∧
      ∀ acc ∈ (assignLectures "A" (some 2) none c3wLectures (initAccs [] [0, 1])).1,
        acc.assigned.length ≤ 2 :=
  ⟨by with_unfolding_all rfl,
   C3_amended "A" 2 none c3wLectures [] [0, 1] (by with_unfolding_all rfl)⟩

/-- Full characterization of `assignLectureToDay` at the assigned date:
an existing entry with the same lectureId suppresses the append and the
minutes bump (but still materializes `targetMinutes`); otherwise the entry
is appended and the minutes added; a missing day behaves like the empty
day. -/
theorem assignLecture_findDay_eq (s : StudyState) (date : Int) (planned : PlannedLecture)
    (est : Option ℚ) :
    findDay (assignLectureToDay s date planned est).studyDays date =
      some (
        let day := (findDay s.studyDays date).getD
          { date := date, completedMinutes := 0, targetLectures := [], completedLectures := [] }
        if day.targetLectures.any (fun e => e.lectureId == planned.lectureId) then
          { day with targetMinutes := some (day.targetMinutes.getD 0) }
        else
          { day with
            targetLectures := day.targetLectures ++ [planned],
            targetMinutes := some (day.targetMinutes.getD 0 +
              est.getD (((s.lectures.find? (fun l => l.id == planned.lectureId)).map
                (fun l => l.estimatedMinutes)).getD 30)) }) := by
  rcases hfd : findDay s.studyDays date with _ | day
  · -- the day is created fresh, appended, then rewritten by the map
    unfold assignLectureToDay getOrCreateStudyDay
    rw [hfd]
    simp only [hfd, Option.getD_none, List.map_append]
    rw [map_replace_of_absent s.studyDays date _ hfd]
    simp only [List.map_cons, List.map_nil, beq_self_eq_true, if_true]
    rw [findDay_append_right s.studyDays date _ (by simp) hfd]
    simp
  · -- the existing first day with this date is rewritten in place
    unfold assignLectureToDay getOrCreateStudyDay
    rw [hfd]
    simp only [hfd, Option.getD_some]
    have hfd2 : List.find? (fun d => d.date == date) s.studyDays = some day := hfd
    have hdate : (day.date == date) = true := by simpa using List.find?_some hfd2
    refine Eq.trans (findDay_map_replace s.studyDays date _ ?_ day hfd) ?_
    · exact hdate
    have hany : (day.targetLectures.find? (fun item =>
        item.lectureId == planned.lectureId)).isSome =
        day.targetLectures.any (fun e => e.lectureId == planned.lectureId) :=
      Bool.eq_iff_iff.mpr (List.find?_isSome.trans List.any_eq_true.symm)
    rw [hany]
    rcases hex : day.targetLectures.any (fun e => e.lectureId == planned.lectureId) with _ | _
    · simp only [hex, Bool.false_eq_true, if_false]
    · simp only [hex, if_true, add_zero]

theorem streakAux_sound (state : StudyState) :
    ∀ (fuel : Nat) (cursor : Int) (k : Nat),
      computeStreakAux state cursor fuel = k →
      (∀ i : Nat, i < k → qualAt state (cursor - i) = true) ∧
        (k < fuel → qualAt state (cursor - k) = false) := by
  intro fuel
  induction fuel with
  | zero =>
    intro cursor k h
    simp only [computeStreakAux] at h
    subst h
    exact ⟨fun i hi => absurd hi (Nat.not_lt_zero i), fun hk => absurd hk (Nat.not_lt_zero 0)⟩
  | succ fuel ih =>
    intro cursor k h
    simp only [computeStreakAux] at h
    rcases hfd : findDay state.studyDays cursor with _ | day
    · simp only [hfd] at h
      subst h
      refine ⟨fun i hi => absurd hi (Nat.not_lt_zero i), fun _ => ?_⟩
      simp only [qualAt, Nat.cast_zero, sub_zero, hfd]
    · simp only [hfd] at h
      rcases hq : dayQualifies state.settings day with _ | _
      · simp only [hq, Bool.false_eq_true, if_false] at h
        subst h
        refine ⟨fun i hi => absurd hi (Nat.not_lt_zero i), fun _ => ?_⟩
        simp only [qualAt, Nat.cast_zero, sub_zero, hfd, hq]
      · simp only [hq, if_true] at h
        rcases ih (cursor - 1) (computeStreakAux state (cursor - 1) fuel) rfl with ⟨ih1, ih2⟩
        constructor
        · intro i hi
          cases i with
          | zero =>
            simp only [qualAt, Nat.cast_zero, sub_zero, hfd, hq]
          | succ j =>
            have hj : j < computeStreakAux state (cursor - 1) fuel := by omega
            have hqj := ih1 j hj
            have harith : cursor - 1 - (j : Int) = cursor - ((j + 1 : Nat) : Int) := by
              push_cast
              ring
            rw [harith] at hqj
            exact hqj
        · intro hk
          have hk2 : computeStreakAux state (cursor - 1) fuel < fuel := by omega
          have hqe := ih2 hk2
          have harith : cursor - 1 - ((computeStreakAux state (cursor - 1) fuel : Nat) : Int) =
              cursor - ((1 + computeStreakAux state (cursor - 1) fuel : Nat) : Int) := by
            push_cast
            ring
          rw [harith] at hqe
          rw [h] at hqe
          exact hqe

theorem streakAux_complete (state : StudyState) :
    ∀ (k : Nat) (cursor : Int) (fuel : Nat), k < fuel →
      (∀ i : Nat, i < k → qualAt state (cursor - i) = true) →
      qualAt state (cursor - k) = false →
      computeStreakAux state cursor fuel = k := by
  intro k
  induction k with
  | zero =>
    intro cursor fuel hfuel _ h0
    rcases fuel with _ | f
    · omega
    · simp only [qualAt, Nat.cast_zero, sub_zero] at h0
      rcases hfd : findDay state.studyDays cursor with _ | day
      · simp only [computeStreakAux, hfd]
      · simp only [hfd] at h0
        simp only [computeStreakAux, hfd, h0, Bool.false_eq_true, if_false]
  | succ k ih =>
    intro cursor fuel hfuel hall hend
    rcases fuel with _ | f
    · omega
    · have h0 : qualAt state (cursor - (0 : Nat)) = true := hall 0 (Nat.succ_pos k)
      simp only [qualAt, Nat.cast_zero, sub_zero] at h0
      rcases hfd : findDay state.studyDays cursor with _ | day
      · simp [hfd] at h0
      · simp only [hfd] at h0
        simp only [computeStreakAux, hfd, h0, if_true]
        have htail : computeStreakAux state (cursor - 1) f = k := by
          refine ih (cursor - 1) f (by omega) ?_ ?_
          · intro i hi
            have hqi := hall (i + 1) (by omega)
            have harith : cursor - ((i + 1 : Nat) : Int) = cursor - 1 - (i : Int) := by
              push_cast
              ring
            rw [harith] at hqi
            exact hqi
          · have harith : cursor - ((k + 1 : Nat) : Int) = cursor - 1 - (k : Int) := by
              push_cast
              ring
            rw [harith] at hend
            exact hend
        rw [htail]
        omega

theorem qual_run_le_length (state : StudyState) (today : Int) (k : Nat)
    (h : ∀ i : Nat, i < k → qualAt state (today - i) = true) :
    k ≤ state.studyDays.length := by
  classical
  have hsub : ((List.range k).map (fun i : Nat => today - (i : Int))).toFinset ⊆
      (state.studyDays.map (fun d => d.date)).toFinset := by
    intro d hd
    rw [List.mem_toFinset] at hd
    rcases List.mem_map.mp hd with ⟨i, hi, hdi⟩
    have hik : i < k := List.mem_range.mp hi
    have hq := h i hik
    simp only [qualAt] at hq
    rcases hfd : findDay state.studyDays (today - i) with _ | day
    · simp [hfd] at hq
    · have hfd2 : List.find? (fun x => x.date == today - (i : Int)) state.studyDays =
          some day := hfd
      have hmem : day ∈ state.studyDays := List.mem_of_find?_eq_some hfd2
      have hdate : (day.date == today - (i : Int)) = true := by
        simpa using List.find?_some hfd2
      rw [List.mem_toFinset]
      refine List.mem_map.mpr ⟨day, hmem, ?_⟩
      rw [← hdi]
      simpa using hdate
  have hnodup : ((List.range k).map (fun i : Nat => today - (i : Int))).Nodup := by
    refine List.Nodup.map ?_ (List.nodup_range k)
    intro i j hij
    have hij2 : today - (i : Int) = today - (j : Int) := hij
    omega
  calc k = ((List.range k).map (fun i : Nat => today - (i : Int))).length := by simp
    _ = ((List.range k).map (fun i : Nat => today - (i : Int))).toFinset.card :=
        (List.toFinset_card_of_nodup hnodup).symm
    _ ≤ (state.studyDays.map (fun d => d.date)).toFinset.card := Finset.card_le_card hsub
    _ ≤ (state.studyDays.map (fun d => d.date)).length := List.toFinset_card_le _
    _ = state.studyDays.length := by simp

/-- C9: `computeStreak` returns `k` exactly when today and each of the
preceding `k - 1` consecutive days qualify (their study day exists and its
completed-lecture count or completed minutes reaches the threshold — this is
`qualAt`) and the day `k` steps back does not qualify or has no study day
(`qualAt` false there).  Instantiating `k = 0` gives the claim's first
clause: the streak is 0 exactly when today's day is absent or meets neither
threshold. -/
theorem C9_streak_spec (state : StudyState) (today : Int) (k : Nat) :
    computeStreak state today = k ↔
      ((∀ i : Nat, i < k → qualAt state (today - i) = true) ∧
        qualAt state (today - k) = false) := by
  constructor
  · intro h
    rcases streakAux_sound state (state.studyDays.length + 1) today k h with ⟨h1, h2⟩
    refine ⟨h1, h2 ?_⟩
    have := qual_run_le_length state today k h1
    omega
  · rintro ⟨h1, h2⟩
    have hk : k ≤ state.studyDays.length := qual_run_le_length state today k h1
    exact streakAux_complete state k today (state.studyDays.length + 1) (by omega) h1 h2

/-- C10 amended: `assignLectureToDay` leaves the day's `targetLectures`
unchanged when some entry already carries the same lectureId (regardless of
its subjectId or isRevision flag), and then rewrites `targetMinutes` to its
previous numeric value with an absent value materialized as an explicit 0;
otherwise it appends exactly the new entry and adds its minutes (the
explicit argument, else the lecture's estimate, else 30) to that value.  A
missing day is created fresh and behaves like the empty day. -/
theorem C10_amended (s : StudyState) (date : Int) (planned : PlannedLecture) (est : Option ℚ) :
    findDay (assignLectureToDay s date planned est).studyDays date =
      some (
        let day := (findDay s.studyDays date).getD
          { date := date, completedMinutes := 0, targetLectures := [], completedLectures := [] }
        if day.targetLectures.any (fun e => e.lectureId == planned.lectureId) then
          { day with targetMinutes := some (day.targetMinutes.getD 0) }
        else
          { day with
            targetLectures := day.targetLectures ++ [planned],
            targetMinutes := some (day.targetMinutes.getD 0 +
              est.getD (((s.lectures.find? (fun l => l.id == planned.lectureId)).map
                (fun l => l.estimatedMinutes)).getD 30)) }) :=
  assignLecture_findDay_eq s date planned est


theorem findDay_of_mem_nodup (days : List StudyDay)
    (hnd : (days.map (fun d => d.date)).Nodup) (day : StudyDay) (hmem : day ∈ days) :
    findDay days day.date = some day := by
  rcases hfd : findDay days day.date with _ | day2
  · have hall : ∀ x ∈ days, ¬((fun d => d.date == day.date) x = true) :=
      List.find?_eq_none.mp hfd
    exact absurd (by simp : (day.date == day.date) = true) (hall day hmem)
  · have hfd2 : List.find? (fun d => d.date == day.date) days = some day2 := hfd
    have hmem2 : day2 ∈ days := List.mem_of_find?_eq_some hfd2
    have hdate : day2.date = day.date := by simpa using List.find?_some hfd2
    have : day2 = day := List.inj_on_of_nodup_map hnd hmem2 hmem hdate
    rw [this]

theorem findDay_map_replace_ne (days : List StudyDay) (date : Int) (u : StudyDay)
    (hu : u.date = date) (d2 : Int) (hne : d2 ≠ date) :
    findDay (days.map (fun item => if item.date == date then u else item)) d2 =
      findDay days d2 := by
  induction days with
  | nil => rfl
  | cons d ds ih =>
    rcases hb : (d.date == date) with _ | _
    · simp only [findDay, List.map_cons, List.find?_cons, hb, Bool.false_eq_true, if_false]
      rcases hb2 : (d.date == d2) with _ | _
      · exact ih
      · rfl
    · have hd : d.date = date := by simpa using hb
      have hdne : (d.date == d2) = false := by
        simp only [beq_eq_false_iff_ne, ne_eq]
        rw [hd]
        exact fun h => hne h.symm
      have hune : (u.date == d2) = false := by
        simp only [beq_eq_false_iff_ne, ne_eq]
        rw [hu]
        exact fun h => hne h.symm
      simp only [findDay, List.map_cons, List.find?_cons, hb, if_true, hune, hdne]
      exact ih

theorem assignLecture_findDay_ne (st : StudyState) (date : Int) (planned : PlannedLecture)
    (est : Option ℚ) (d2 : Int) (hne : d2 ≠ date) :
    findDay (assignLectureToDay st date planned est).studyDays d2 =
      findDay st.studyDays d2 := by
  rcases hfd : findDay st.studyDays date with _ | day
  · unfold assignLectureToDay getOrCreateStudyDay
    rw [hfd]
    simp only [List.map_append]
    rw [map_replace_of_absent st.studyDays date _ hfd]
    simp only [List.map_cons, List.map_nil, beq_self_eq_true, if_true]
    rw [findDay, List.find?_append]
    have hbeq : (date == d2) = false := by
      simp only [beq_eq_false_iff_ne, ne_eq]
      exact fun h => hne h.symm
    simp only [List.find?_cons, List.find?_nil, hbeq]
    rw [Option.or_none]
    rfl
  · unfold assignLectureToDay getOrCreateStudyDay
    rw [hfd]
    have hdate : day.date = date := by
      have hfd2 : List.find? (fun d => d.date == date) st.studyDays = some day := hfd
      simpa using List.find?_some hfd2
    dsimp only
    refine findDay_map_replace_ne st.studyDays date _ ?_ d2 hne
    exact hdate

theorem assignRev_step (s st : StudyState) (date : Int) (planned : PlannedLecture)
    (est : Option ℚ) (hrev : planned.isRevision = true)
    (h1 : ∀ (d : Int) (day : StudyDay), findDay s.studyDays d = some day →
      ∃ day2 t, findDay st.studyDays d = some day2 ∧
        day2.targetLectures = day.targetLectures ++ t ∧ ∀ e ∈ t, e.isRevision = true)
    (h2 : ∀ d : Int, findDay s.studyDays d = none →
      ∀ day2, findDay st.studyDays d = some day2 →
        ∀ e ∈ day2.targetLectures, e.isRevision = true) :
    (∀ (d : Int) (day : StudyDay), findDay s.studyDays d = some day →
      ∃ day2 t, findDay (assignLectureToDay st date planned est).studyDays d = some day2 ∧
        day2.targetLectures = day.targetLectures ++ t ∧ ∀ e ∈ t, e.isRevision = true) ∧
    (∀ d : Int, findDay s.studyDays d = none →
      ∀ day2, findDay (assignLectureToDay st date planned est).studyDays d = some day2 →
        ∀ e ∈ day2.targetLectures, e.isRevision = true) := by
  constructor
  · intro d day hsd
    by_cases hd : d = date
    · subst hd
      rcases h1 d day hsd with ⟨day2, t, hfind, heq, hrevt⟩
      have hchar := assignLecture_findDay_eq st d planned est
      rw [hfind] at hchar
      simp only [Option.getD_some] at hchar
      rcases hex : day2.targetLectures.any (fun e => e.lectureId == planned.lectureId)
        with _ | _
      · rw [hex] at hchar
        simp only [Bool.false_eq_true, if_false] at hchar
        refine ⟨_, t ++ [planned], hchar, ?_, ?_⟩
        · show day2.targetLectures ++ [planned] = day.targetLectures ++ (t ++ [planned])
          rw [heq, List.append_assoc]
        · intro e he
          rcases List.mem_append.mp he with he | he
          · exact hrevt e he
          · rw [List.mem_singleton.mp he]
            exact hrev
      · rw [hex] at hchar
        simp only [if_true] at hchar
        exact ⟨_, t, hchar, heq, hrevt⟩
    · rw [assignLecture_findDay_ne st date planned est d hd]
      exact h1 d day hsd
  · intro d hsd day2 hfind2
    by_cases hd : d = date
    · subst hd
      have hchar := assignLecture_findDay_eq st d planned est
      rcases hst : findDay st.studyDays d with _ | base
      · rw [hst] at hchar
        simp only [Option.getD_none, List.any_nil, Bool.false_eq_true, if_false,
          List.nil_append] at hchar
        rw [hchar] at hfind2
        have hday2 := Option.some.inj hfind2
        rw [← hday2]
        intro e he
        have he2 : e ∈ [planned] := he
        rw [List.mem_singleton.mp he2]
        exact hrev
      · rw [hst] at hchar
        simp only [Option.getD_some] at hchar
        have hbase := h2 d hsd base hst
        rcases hex : base.targetLectures.any (fun e => e.lectureId == planned.lectureId)
          with _ | _
        · rw [hex] at hchar
          simp only [Bool.false_eq_true, if_false] at hchar
          rw [hchar] at hfind2
          have hday2 := Option.some.inj hfind2
          rw [← hday2]
          intro e he
          rcases List.mem_append.mp he with he | he
          · exact hbase e he
          · rw [List.mem_singleton.mp he]
            exact hrev
        · rw [hex] at hchar
          simp only [if_true] at hchar
          rw [hchar] at hfind2
          have hday2 := Option.some.inj hfind2
          rw [← hday2]
          intro e he
          exact hbase e he
    · rw [assignLecture_findDay_ne st date planned est d hd] at hfind2
      exact h2 d hsd day2 hfind2

theorem assignRev_fold (s : StudyState) :
    ∀ (items : List (Nat × Lecture)) (st : StudyState)
      (F : StudyState → Nat × Lecture → StudyState),
      (∀ (st2 : StudyState) (p : Nat × Lecture), ∃ date planned est,
        planned.isRevision = true ∧ F st2 p = assignLectureToDay st2 date planned est) →
      (∀ (d : Int) (day : StudyDay), findDay s.studyDays d = some day →
        ∃ day2 t, findDay st.studyDays d = some day2 ∧
          day2.targetLectures = day.targetLectures ++ t ∧ ∀ e ∈ t, e.isRevision = true) →
      (∀ d : Int, findDay s.studyDays d = none →
        ∀ day2, findDay st.studyDays d = some day2 →
          ∀ e ∈ day2.targetLectures, e.isRevision = true) →
      (∀ (d : Int) (day : StudyDay), findDay s.studyDays d = some day →
        ∃ day2 t, findDay (items.foldl F st).studyDays d = some day2 ∧
          day2.targetLectures = day.targetLectures ++ t ∧ ∀ e ∈ t, e.isRevision = true) ∧
      (∀ d : Int, findDay s.studyDays d = none →
        ∀ day2, findDay (items.foldl F st).studyDays d = some day2 →
          ∀ e ∈ day2.targetLectures, e.isRevision = true) := by
  intro items
  induction items with
  | nil =>
    intro st F hF h1 h2
    exact ⟨h1, h2⟩
  | cons p rest ih =>
    intro st F hF h1 h2
    rw [List.foldl_cons]
    rcases hF st p with ⟨date, planned, est, hrev, heq⟩
    rw [heq]
    rcases assignRev_step s st date planned est hrev h1 h2 with ⟨h1s, h2s⟩
    exact ih (assignLectureToDay st date planned est) F hF h1s h2s

/-- C8: scheduling a revision pass preserves every existing day's
`targetLectures` as a prefix — in particular every previously-present
non-revision PlannedLecture is still present and unaltered — and everything
it appends (including the contents of freshly created days) is
revision-flagged. -/
theorem C8_revision_only_appends (s : StudyState) (today : Int) (sid : String)
    (pass : RevisionPass)
    (hnd : (s.studyDays.map (fun d => d.date)).Nodup) :
    (∀ day ∈ s.studyDays, ∃ day2 t,
        findDay (scheduleRevisionPass s today sid pass).1.studyDays day.date = some day2 ∧
        day2.targetLectures = day.targetLectures ++ t ∧
        ∀ e ∈ t, e.isRevision = true) ∧
    (∀ d : Int, findDay s.studyDays d = none →
        ∀ day2, findDay (scheduleRevisionPass s today sid pass).1.studyDays d = some day2 →
        ∀ e ∈ day2.targetLectures, e.isRevision = true) := by
  have base1 : ∀ (d : Int) (day : StudyDay), findDay s.studyDays d = some day →
      ∃ day2 t, findDay s.studyDays d = some day2 ∧
        day2.targetLectures = day.targetLectures ++ t ∧ ∀ e ∈ t, e.isRevision = true := by
    intro d day h
    refine ⟨day, [], h, (List.append_nil _).symm, ?_⟩
    intro e he
    cases he
  have base2 : ∀ d : Int, findDay s.studyDays d = none →
      ∀ day2, findDay s.studyDays d = some day2 →
        ∀ e ∈ day2.targetLectures, e.isRevision = true := by
    intro d hn day2 hs
    rw [hn] at hs
    cases hs
  have hmain : (∀ (d : Int) (day : StudyDay), findDay s.studyDays d = some day →
      ∃ day2 t, findDay (scheduleRevisionPass s today sid pass).1.studyDays d = some day2 ∧
        day2.targetLectures = day.targetLectures ++ t ∧ ∀ e ∈ t, e.isRevision = true) ∧
      (∀ d : Int, findDay s.studyDays d = none →
        ∀ day2, findDay (scheduleRevisionPass s today sid pass).1.studyDays d = some day2 →
          ∀ e ∈ day2.targetLectures, e.isRevision = true) := by
    unfold scheduleRevisionPass
    rcases hsub : s.subjects.find? (fun item => item.id == sid) with _ | subject
    · simp only [hsub]
      exact ⟨base1, base2⟩
    · simp only [hsub]
      split
      · exact ⟨base1, base2⟩
      · dsimp only
        refine assignRev_fold s _ s _ ?_ base1 base2
        intro st2 p
        exact ⟨_, _, _, rfl, rfl⟩
  rcases hmain with ⟨hm1, hm2⟩
  refine ⟨?_, hm2⟩
  intro day hday
  exact hm1 day.date day (findDay_of_mem_nodup s.studyDays hnd day hday)

/-- C8 witness: the statement at a concrete state with one eligible done
lecture and a pre-existing non-revision entry. -/
theorem C8_witness :
    (∀ day ∈ c8State.studyDays, ∃ day2 t,
        findDay (scheduleRevisionPass c8State 0 "A" c8Pass).1.studyDays day.date = some day2 ∧
        day2.targetLectures = day.targetLectures ++ t ∧
        ∀ e ∈ t, e.isRevision = true) ∧
    (∀ d : Int, findDay c8State.studyDays d = none →
        ∀ day2, findDay (scheduleRevisionPass c8State 0 "A" c8Pass).1.studyDays d = some day2 →
        ∀ e ∈ day2.targetLectures, e.isRevision = true) :=
  C8_revision_only_appends c8State 0 "A" c8Pass (by decide)



theorem modifyDay_find_ne (days : List StudyDay) (d2 : Int) (f : StudyDay → StudyDay)
    (hf : ∀ x, (f x).date = x.date) (d : Int) (hne : d ≠ d2) :
    findDay (modifyDay days d2 f) d = findDay days d := by
  induction days with
  | nil => rfl
  | cons a as ih =>
    rcases hb : (a.date == d2) with _ | _
    · simp only [modifyDay, hb, Bool.false_eq_true, if_false, findDay, List.find?_cons]
      rcases hb2 : (a.date == d) with _ | _
      · exact ih
      · rfl
    · have ha : a.date = d2 := by simpa using hb
      have hfa : ((f a).date == d) = false := by
        simp only [beq_eq_false_iff_ne, ne_eq, hf a, ha]
        exact fun h => hne h.symm
      have haa : (a.date == d) = false := by
        simp only [beq_eq_false_iff_ne, ne_eq, ha]
        exact fun h => hne h.symm
      simp only [modifyDay, hb, if_true, findDay, List.find?_cons, hfa, haa]

theorem modifyDay_find_eq (days : List StudyDay) (d : Int) (f : StudyDay → StudyDay)
    (hf : ∀ x, (f x).date = x.date) :
    findDay (modifyDay days d f) d = (findDay days d).map f := by
  induction days with
  | nil => rfl
  | cons a as ih =>
    rcases hb : (a.date == d) with _ | _
    · simp only [modifyDay, hb, Bool.false_eq_true, if_false, findDay, List.find?_cons]
      exact ih
    · have hfa : ((f a).date == d) = true := by
        simp only [beq_iff_eq, hf a]
        simpa using hb
      simp only [modifyDay, hb, if_true, findDay, List.find?_cons, hfa]
      rfl

theorem modifyDay_dates (days : List StudyDay) (d : Int) (f : StudyDay → StudyDay)
    (hf : ∀ x, (f x).date = x.date) :
    (modifyDay days d f).map (fun x => x.date) = days.map (fun x => x.date) := by
  induction days with
  | nil => rfl
  | cons a as ih =>
    rcases hb : (a.date == d) with _ | _
    · simp only [modifyDay, hb, Bool.false_eq_true, if_false, List.map_cons]
      rw [ih]
    · simp only [modifyDay, hb, if_true, List.map_cons, hf a]

theorem removeSubjectTargets_date (day : StudyDay) (sid : String) :
    (removeSubjectTargets day sid).date = day.date := rfl

theorem strip_find_not_mem (dates : List Int) (days : List StudyDay) (sid : String) (d : Int)
    (hd : d ∉ dates) :
    findDay (stripSubject days dates sid) d = findDay days d := by
  induction dates generalizing days with
  | nil => rfl
  | cons a as ih =>
    have hda : d ≠ a := fun h => hd (h ▸ List.mem_cons_self a as)
    have hdas : d ∉ as := fun h => hd (List.mem_cons_of_mem a h)
    show findDay (stripSubject (modifyDay days a (fun day => removeSubjectTargets day sid)) as sid) d =
      findDay days d
    rw [ih _ hdas]
    exact modifyDay_find_ne days a (fun day => removeSubjectTargets day sid)
      (fun x => rfl) d hda

theorem strip_find_mem (dates : List Int) (days : List StudyDay) (sid : String) (d : Int)
    (hnd : dates.Nodup) (hd : d ∈ dates) :
    findDay (stripSubject days dates sid) d =
      (findDay days d).map (fun day => removeSubjectTargets day sid) := by
  induction dates generalizing days with
  | nil => cases hd
  | cons a as ih =>
    rcases List.mem_cons.mp hd with hda | hdas
    · subst hda
      have hdnotin : d ∉ as := (List.nodup_cons.mp hnd).1
      show findDay (stripSubject (modifyDay days d (fun day => removeSubjectTargets day sid)) as sid) d =
        (findDay days d).map (fun day => removeSubjectTargets day sid)
      rw [strip_find_not_mem as _ sid d hdnotin]
      exact modifyDay_find_eq days d (fun day => removeSubjectTargets day sid) (fun x => rfl)
    · have hda : d ≠ a := by
        intro h
        subst h
        exact (List.nodup_cons.mp hnd).1 hdas
      show findDay (stripSubject (modifyDay days a (fun day => removeSubjectTargets day sid)) as sid) d =
        (findDay days d).map (fun day => removeSubjectTargets day sid)
      rw [ih _ (List.nodup_cons.mp hnd).2 hdas]
      rw [modifyDay_find_ne days a (fun day => removeSubjectTargets day sid)
        (fun x => rfl) d hda]

theorem strip_dates (dates : List Int) (days : List StudyDay) (sid : String) :
    (stripSubject days dates sid).map (fun x => x.date) = days.map (fun x => x.date) := by
  induction dates generalizing days with
  | nil => rfl
  | cons a as ih =>
    show (stripSubject (modifyDay days a (fun day => removeSubjectTargets day sid)) as sid).map
        (fun x => x.date) = days.map (fun x => x.date)
    rw [ih]
    exact modifyDay_dates days a _ (fun x => rfl)

theorem mergeDay_date (sid : String) (acc : DayAcc) (day : StudyDay) :
    (mergeDay sid acc day).date = day.date := by
  unfold mergeDay
  dsimp only
  split
  · split
    · rfl
    · rfl
  · split
    · rfl
    · rfl

theorem mergeDay_isRestDay (sid : String) (acc : DayAcc) (day : StudyDay) :
    (mergeDay sid acc day).isRestDay = day.isRestDay := by
  unfold mergeDay
  dsimp only
  split
  · split
    · rfl
    · rfl
  · split
    · rfl
    · rfl

theorem mergeDay_targets (sid : String) (acc : DayAcc) (day : StudyDay) :
    (mergeDay sid acc day).targetLectures =
      day.targetLectures.filter (fun t => t.subjectId != sid || t.isRevision) ++ acc.assigned := by
  unfold mergeDay
  dsimp only
  split
  · split
    · rfl
    · rfl
  · split
    · rfl
    · rfl

theorem mergeDay_completed (sid : String) (acc : DayAcc) (day : StudyDay) :
    (mergeDay sid acc day).completedLectures =
      day.completedLectures.filter (fun e =>
        (acc.assigned.map (fun item => item.lectureId)).contains e.lectureId || e.isRevision) := by
  unfold mergeDay
  dsimp only
  split
  all_goals
    dsimp only
    split
    next => rfl
    next h =>
      have hnil : day.completedLectures = [] := by
        rcases hl : day.completedLectures with _ | ⟨x, xs⟩
        · rfl
        · rw [hl] at h
          simp at h
      rw [hnil]
      rfl

theorem apply_find_not (accs : List DayAcc) (days : List StudyDay) (sid : String) (d : Int)
    (hd : ∀ acc ∈ accs, acc.date ≠ d) :
    findDay (applyPlan days sid accs) d = findDay days d := by
  induction accs generalizing days with
  | nil => rfl
  | cons a as ih =>
    show findDay (applyPlan (modifyDay days a.date (mergeDay sid a)) sid as) d = findDay days d
    rw [ih _ (fun acc hacc => hd acc (List.mem_cons_of_mem a hacc))]
    exact modifyDay_find_ne days a.date (mergeDay sid a) (mergeDay_date sid a) d
      (fun h => hd a (List.mem_cons_self a as) h.symm)

theorem apply_find_mem (accs : List DayAcc) (days : List StudyDay) (sid : String) (d : Int)
    (acc : DayAcc) (hnd : (accs.map (fun a => a.date)).Nodup)
    (hfind : accs.find? (fun a => a.date == d) = some acc) :
    findDay (applyPlan days sid accs) d = (findDay days d).map (mergeDay sid acc) := by
  induction accs generalizing days with
  | nil => cases hfind
  | cons a as ih =>
    rw [List.map_cons] at hnd
    rcases List.nodup_cons.mp hnd with ⟨hnotin0, hndtail⟩
    rw [List.find?_cons] at hfind
    rcases hb : (a.date == d) with _ | _
    · rw [hb] at hfind
      have hane : a.date ≠ d := by simpa using hb
      show findDay (applyPlan (modifyDay days a.date (mergeDay sid a)) sid as) d =
        (findDay days d).map (mergeDay sid acc)
      rw [ih _ hndtail hfind]
      rw [modifyDay_find_ne days a.date (mergeDay sid a) (mergeDay_date sid a) d
        (fun h => hane h.symm)]
    · rw [hb] at hfind
      have hacc : a = acc := by
        injection hfind
      subst hacc
      have had : a.date = d := by simpa using hb
      have hnotin : ∀ acc2 ∈ as, acc2.date ≠ d := by
        intro acc2 hacc2 hd2
        exact hnotin0 (List.mem_map.mpr ⟨acc2, hacc2, by rw [hd2, had]⟩)
      show findDay (applyPlan (modifyDay days a.date (mergeDay sid a)) sid as) d =
        (findDay days d).map (mergeDay sid a)
      rw [apply_find_not as _ sid d hnotin]
      rw [had] at *
      exact modifyDay_find_eq days d (mergeDay sid a) (mergeDay_date sid a)

theorem apply_dates (accs : List DayAcc) (days : List StudyDay) (sid : String) :
    (applyPlan days sid accs).map (fun x => x.date) = days.map (fun x => x.date) := by
  induction accs generalizing days with
  | nil => rfl
  | cons a as ih =>
    show (applyPlan (modifyDay days a.date (mergeDay sid a)) sid as).map (fun x => x.date) =
      days.map (fun x => x.date)
    rw [ih]
    exact modifyDay_dates days a.date (mergeDay sid a) (mergeDay_date sid a)

theorem findDay_perm_nodup (days2 days : List StudyDay)
    (hperm : days2.Perm days) (hnd : (days.map (fun x => x.date)).Nodup) (d : Int) :
    findDay days2 d = findDay days d := by
  rcases hfd : findDay days d with _ | day
  · have hall : ∀ x ∈ days, ¬((fun y => y.date == d) x = true) := List.find?_eq_none.mp hfd
    exact List.find?_eq_none.mpr (fun x hx => hall x (hperm.mem_iff.mp hx))
  · have hfd2 : List.find? (fun y => y.date == d) days = some day := hfd
    have hmem : day ∈ days := List.mem_of_find?_eq_some hfd2
    have hpd := List.find?_some hfd2
    have hsome : (List.find? (fun y => y.date == d) days2).isSome = true :=
      List.find?_isSome.mpr ⟨day, hperm.mem_iff.mpr hmem, hpd⟩
    rcases hfd3 : List.find? (fun y => y.date == d) days2 with _ | day2
    · rw [hfd3] at hsome
      cases hsome
    · have hmem2 : day2 ∈ days := hperm.mem_iff.mp (List.mem_of_find?_eq_some hfd3)
      have hpd2 := List.find?_some hfd3
      have heq : day2 = day := by
        refine List.inj_on_of_nodup_map hnd hmem2 hmem ?_
        have h1 : day2.date = d := by simpa using hpd2
        have h2 : day.date = d := by simpa using hpd
        rw [h1, h2]
      rw [findDay, hfd3, heq]

theorem assign_dates (sid : String) (maxL : Option Nat) (maxM : Option ℚ) :
    ∀ (lectures : List Lecture) (accs : List DayAcc) (b : Bool),
      ((lectures.foldl (assignStep sid maxL maxM) (accs, b)).1).map (fun a => a.date) =
        accs.map (fun a => a.date) := by
  have hmod : ∀ (accs : List DayAcc) (i : Nat) (f : DayAcc → DayAcc),
      (∀ a, (f a).date = a.date) →
      (modifyIdx f accs i).map (fun a => a.date) = accs.map (fun a => a.date) := by
    intro accs
    induction accs with
    | nil => intro i f hf; rfl
    | cons a as ih =>
      intro i f hf
      cases i with
      | zero => simp [modifyIdx, hf a]
      | succ n => simp only [modifyIdx, List.map_cons]; rw [ih n f hf]
  intro lectures
  induction lectures with
  | nil => intro accs b; rfl
  | cons lec rest ih =>
    intro accs b
    rw [List.foldl_cons]
    have hstep : (assignStep sid maxL maxM (accs, b) lec) =
        ((assignStep sid maxL maxM (accs, b) lec).1, (assignStep sid maxL maxM (accs, b) lec).2) :=
      rfl
    rw [hstep, ih]
    show (modifyIdx _ accs _).map (fun a => a.date) = accs.map (fun a => a.date)
    exact hmod accs _ _ (fun a => rfl)

theorem initAccs_dates (days : List StudyDay) (dates : List Int) :
    (initAccs days dates).map (fun a => a.date) = dates := by
  induction dates with
  | nil => rfl
  | cons a as ih =>
    show (initAccs days (a :: as)).map (fun x => x.date) = a :: as
    have hstep : initAccs days (a :: as) =
        ({ date := a, assigned := [],
           minutes := (((findDay days a).getD { date := a }).targetMinutes).getD 0 } : DayAcc)
          :: initAccs days as := rfl
    rw [hstep, List.map_cons, ih]

theorem findDay_append_left (days l2 : List StudyDay) (d : Int) (x : StudyDay)
    (h : findDay days d = some x) : findDay (days ++ l2) d = some x := by
  rw [findDay, List.find?_append]
  rw [findDay] at h
  rw [h]
  rfl

theorem buildDays_spec (days0 : List StudyDay) (today : Int) :
    ∀ n : Nat,
      ∃ ext,
        ((List.range n).foldl
            (fun (acc : List StudyDay × List StudyDay) (i : Nat) =>
              let p := ensureStudyDay acc.1 (today + (i : Int))
              (p.1, acc.2 ++ [p.2])) (days0, [])).1 = days0 ++ ext ∧
        (∀ day ∈ ext, findDay days0 day.date = none ∧ day = freshDay day.date ∧
          ∃ i : Nat, i < n ∧ day.date = today + (i : Int)) ∧
        (ext.map (fun d => d.date)).Nodup ∧
        (∀ i : Nat, i < n →
          findDay (((List.range n).foldl
            (fun (acc : List StudyDay × List StudyDay) (i : Nat) =>
              let p := ensureStudyDay acc.1 (today + (i : Int))
              (p.1, acc.2 ++ [p.2])) (days0, [])).1) (today + (i : Int)) =
          some ((findDay days0 (today + (i : Int))).getD (freshDay (today + (i : Int))))) ∧
        ((List.range n).foldl
            (fun (acc : List StudyDay × List StudyDay) (i : Nat) =>
              let p := ensureStudyDay acc.1 (today + (i : Int))
              (p.1, acc.2 ++ [p.2])) (days0, [])).2 =
          (List.range n).map (fun (i : Nat) => (findDay days0 (today + (i : Int))).getD
            (freshDay (today + (i : Int)))) := by
  intro n
  induction n with
  | zero =>
    refine ⟨[], (List.append_nil days0).symm, ?_, by simp, ?_, rfl⟩
    · intro day hday
      cases hday
    · intro i hi
      omega
  | succ n ih =>
    rcases ih with ⟨ext, hens, hext, hextnd, hfindi, hrange⟩
    have hsucc : List.range (n + 1) = List.range n ++ [n] := List.range_succ n
    have hfold : (List.range (n + 1)).foldl
        (fun (acc : List StudyDay × List StudyDay) (i : Nat) =>
          let p := ensureStudyDay acc.1 (today + (i : Int))
          (p.1, acc.2 ++ [p.2])) (days0, []) =
        (let prev := (List.range n).foldl
            (fun (acc : List StudyDay × List StudyDay) (i : Nat) =>
              let p := ensureStudyDay acc.1 (today + (i : Int))
              (p.1, acc.2 ++ [p.2])) (days0, [])
         let p := ensureStudyDay prev.1 (today + (n : Int))
         (p.1, prev.2 ++ [p.2])) := by
      rw [hsucc, List.foldl_append]
      rfl
    have hextnone : findDay ext (today + (n : Int)) = none := by
      refine List.find?_eq_none.mpr ?_
      intro day hday
      rcases hext day hday with ⟨_, _, i, hin, hdi⟩
      simp only [beq_iff_eq, hdi]
      intro hcontra
      omega
    have hensfind : findDay (days0 ++ ext) (today + (n : Int)) =
        findDay days0 (today + (n : Int)) := by
      rw [findDay, List.find?_append]
      rw [show List.find? (fun day => day.date == today + (n : Int)) ext =
        findDay ext (today + (n : Int)) from rfl]
      rw [hextnone]
      exact Option.or_none
    rcases hfd0 : findDay days0 (today + (n : Int)) with _ | day0
    · -- the date is newly created and appended
      have he1 : (ensureStudyDay (days0 ++ ext) (today + (n : Int))).1 =
          (days0 ++ ext) ++ [freshDay (today + (n : Int))] := by
        unfold ensureStudyDay
        rw [hensfind, hfd0]
        rfl
      have he2 : (ensureStudyDay (days0 ++ ext) (today + (n : Int))).2 =
          (findDay days0 (today + (n : Int))).getD (freshDay (today + (n : Int))) := by
        unfold ensureStudyDay
        rw [hensfind, hfd0]
        rfl
      refine ⟨ext ++ [freshDay (today + (n : Int))], ?_, ?_, ?_, ?_, ?_⟩
      · rw [hfold]
        dsimp only
        rw [hens, he1, List.append_assoc]
      · intro day hday
        rcases List.mem_append.mp hday with hday | hday
        · rcases hext day hday with ⟨h1, h2, i, hin, hdi⟩
          exact ⟨h1, h2, i, by omega, hdi⟩
        · rw [List.mem_singleton.mp hday]
          exact ⟨hfd0, rfl, n, by omega, rfl⟩
      · rw [List.map_append]
        refine List.Nodup.append hextnd (by simp) ?_
        intro a ha hb
        rcases List.mem_map.mp ha with ⟨day, hday, hda⟩
        rcases hext day hday with ⟨_, _, i, hin, hdi⟩
        have hb2 : a = (freshDay (today + (n : Int))).date := by
          rcases List.mem_map.mp hb with ⟨x, hx, hxa⟩
          rw [List.mem_singleton.mp hx] at hxa
          exact hxa.symm
        rw [← hda, hdi] at hb2
        have : today + (i : Int) = today + (n : Int) := by
          simpa [freshDay] using hb2
        omega
      · intro i hi
        rw [hfold]
        dsimp only
        rw [hens, he1]
        by_cases hin : i < n
        · have hprev := hfindi i hin
          rw [hens] at hprev
          exact findDay_append_left (days0 ++ ext) _ _ _ hprev
        · have hieq : i = n := by omega
          subst hieq
          rw [hfd0]
          refine findDay_append_right (days0 ++ ext) (today + (i : Int)) _ ?_ ?_
          · simp [freshDay]
          · rw [hensfind, hfd0]
      · rw [hfold]
        dsimp only
        rw [hens, hrange, he2, hsucc, List.map_append, List.map_cons, List.map_nil]
    · -- the date already exists
      have he1 : (ensureStudyDay (days0 ++ ext) (today + (n : Int))).1 = days0 ++ ext := by
        unfold ensureStudyDay
        rw [hensfind, hfd0]
      have he2 : (ensureStudyDay (days0 ++ ext) (today + (n : Int))).2 =
          (findDay days0 (today + (n : Int))).getD (freshDay (today + (n : Int))) := by
        unfold ensureStudyDay
        rw [hensfind, hfd0]
        rfl
      refine ⟨ext, ?_, ?_, hextnd, ?_, ?_⟩
      · rw [hfold]
        dsimp only
        rw [hens, he1]
      · intro day hday
        rcases hext day hday with ⟨h1, h2, i, hin, hdi⟩
        exact ⟨h1, h2, i, by omega, hdi⟩
      · intro i hi
        rw [hfold]
        dsimp only
        rw [hens, he1]
        by_cases hin : i < n
        · have hprev := hfindi i hin
          rw [hens] at hprev
          exact hprev
        · have hieq : i = n := by omega
          subst hieq
          rw [hensfind, hfd0]
          rfl
      · rw [hfold]
        dsimp only
        rw [hens, hrange, he2, hsucc, List.map_append, List.map_cons, List.map_nil]

theorem buildDays_spec2 (days0 : List StudyDay) (today endDay : Int) :
    ∃ ext, (buildDays days0 today endDay).1 = days0 ++ ext ∧
      (∀ day ∈ ext, findDay days0 day.date = none ∧ day = freshDay day.date ∧
        ∃ i : Nat, i < (endDay - today + 1).toNat ∧ day.date = today + (i : Int)) ∧
      (ext.map (fun d => d.date)).Nodup ∧
      (∀ i : Nat, i < (endDay - today + 1).toNat →
        findDay (buildDays days0 today endDay).1 (today + (i : Int)) =
          some ((findDay days0 (today + (i : Int))).getD (freshDay (today + (i : Int))))) ∧
      (buildDays days0 today endDay).2 =
        (List.range (endDay - today + 1).toNat).map
          (fun (i : Nat) => (findDay days0 (today + (i : Int))).getD
            (freshDay (today + (i : Int)))) :=
  buildDays_spec days0 today ((endDay - today + 1).toNat)

theorem buildDays_nodup (days0 : List StudyDay) (today endDay : Int)
    (hnd : (days0.map (fun d => d.date)).Nodup) :
    ((buildDays days0 today endDay).1.map (fun d => d.date)).Nodup := by
  rcases buildDays_spec2 days0 today endDay with ⟨ext, hens, hext, hextnd, _, _⟩
  rw [hens, List.map_append]
  refine List.Nodup.append hnd hextnd ?_
  intro a ha hb
  rcases List.mem_map.mp hb with ⟨day, hday, hda⟩
  rcases hext day hday with ⟨hnone, _, _⟩
  rcases List.mem_map.mp ha with ⟨x, hx, hxa⟩
  have hall : ∀ y ∈ days0, ¬((fun z => z.date == day.date) y = true) :=
    List.find?_eq_none.mp hnone
  exact hall x hx (by simp [hxa, hda])

theorem rangeDays_dates (days0 : List StudyDay) (today endDay : Int) :
    (buildDays days0 today endDay).2.map (fun d => d.date) =
      (List.range (endDay - today + 1).toNat).map (fun (i : Nat) => today + (i : Int)) := by
  rcases buildDays_spec2 days0 today endDay with ⟨ext, _, _, _, _, hrange⟩
  rw [hrange, List.map_map]
  refine List.map_congr_left ?_
  intro i _
  show ((findDay days0 (today + (i : Int))).getD (freshDay (today + (i : Int)))).date =
    today + (i : Int)
  rcases hfd : findDay days0 (today + (i : Int)) with _ | day
  · rfl
  · have hfd2 : List.find? (fun z => z.date == today + (i : Int)) days0 = some day := hfd
    simpa using List.find?_some hfd2

theorem planCore_ensuredDays (today : Int) (s : StudyState) (subject : Subject) (sid : String)
    (avail : List Lecture) :
    (planCore today s subject sid avail).ensuredDays =
      (buildDays s.studyDays today (planCore today s subject sid avail).endDay).1 := rfl

theorem planCore_rangeDays (today : Int) (s : StudyState) (subject : Subject) (sid : String)
    (avail : List Lecture) :
    (planCore today s subject sid avail).rangeDays =
      (buildDays s.studyDays today (planCore today s subject sid avail).endDay).2 := rfl

theorem planCore_planningDays (today : Int) (s : StudyState) (subject : Subject) (sid : String)
    (avail : List Lecture) :
    (planCore today s subject sid avail).planningDays =
      (if ((planCore today s subject sid avail).rangeDays.filter
            (fun day => !day.isRestDay)).isEmpty
       then (planCore today s subject sid avail).rangeDays
       else (planCore today s subject sid avail).rangeDays.filter
            (fun day => !day.isRestDay)) := rfl

theorem planCore_planningDates (today : Int) (s : StudyState) (subject : Subject) (sid : String)
    (avail : List Lecture) :
    (planCore today s subject sid avail).planningDates =
      (planCore today s subject sid avail).planningDays.map (fun d => d.date) := rfl

theorem planCore_accs (today : Int) (s : StudyState) (subject : Subject) (sid : String)
    (avail : List Lecture) :
    (planCore today s subject sid avail).accs =
      (assignLectures sid s.settings.maxLecturesPerDay s.settings.maxMinutesPerDay avail
        (initAccs
          (stripSubject (planCore today s subject sid avail).ensuredDays
            (planCore today s subject sid avail).planningDates sid)
          (planCore today s subject sid avail).planningDates)).1 := rfl

theorem planCore_finalDays (today : Int) (s : StudyState) (subject : Subject) (sid : String)
    (avail : List Lecture) :
    (planCore today s subject sid avail).finalDays =
      List.insertionSort dayLE
        (applyPlan
          (stripSubject (planCore today s subject sid avail).ensuredDays
            (planCore today s subject sid avail).planningDates sid)
          sid (planCore today s subject sid avail).accs) := rfl

theorem assignLectures_dates (sid : String) (maxL : Option Nat) (maxM : Option ℚ)
    (lectures : List Lecture) (accs : List DayAcc) :
    ((assignLectures sid maxL maxM lectures accs).1).map (fun a => a.date) =
      accs.map (fun a => a.date) := by
  unfold assignLectures
  exact assign_dates sid maxL maxM lectures accs false

theorem planCore_accs_dates (today : Int) (s : StudyState) (subject : Subject) (sid : String)
    (avail : List Lecture) :
    (planCore today s subject sid avail).accs.map (fun a => a.date) =
      (planCore today s subject sid avail).planningDates := by
  rw [planCore_accs, assignLectures_dates, initAccs_dates]

theorem planCore_planningDates_nodup (today : Int) (s : StudyState) (subject : Subject)
    (sid : String) (avail : List Lecture) :
    (planCore today s subject sid avail).planningDates.Nodup := by
  have hsub : (planCore today s subject sid avail).planningDates.Sublist
      ((planCore today s subject sid avail).rangeDays.map (fun d => d.date)) := by
    rw [planCore_planningDates, planCore_planningDays]
    split
    · exact List.Sublist.refl _
    · exact List.Sublist.map _ (List.filter_sublist _)
  refine hsub.nodup ?_
  rw [planCore_rangeDays, rangeDays_dates]
  refine List.Nodup.map ?_ (List.nodup_range _)
  intro i j hij
  have hij2 : today + (i : Int) = today + (j : Int) := hij
  omega

theorem planCore_find_char (today : Int) (s : StudyState) (subject : Subject) (sid : String)
    (avail : List Lecture) (hnd : (s.studyDays.map (fun d => d.date)).Nodup) (d : Int) :
    findDay (planCore today s subject sid avail).finalDays d =
      (match (planCore today s subject sid avail).accs.find? (fun a => a.date == d) with
       | some acc => (findDay (planCore today s subject sid avail).ensuredDays d).map
           (fun day => mergeDay sid acc (removeSubjectTargets day sid))
       | none => findDay (planCore today s subject sid avail).ensuredDays d) := by
  have hstripdates :
      ((stripSubject (planCore today s subject sid avail).ensuredDays
        (planCore today s subject sid avail).planningDates sid).map (fun d => d.date)) =
      (planCore today s subject sid avail).ensuredDays.map (fun d => d.date) :=
    strip_dates _ _ _
  have hensnd : ((planCore today s subject sid avail).ensuredDays.map (fun d => d.date)).Nodup := by
    rw [planCore_ensuredDays]
    exact buildDays_nodup _ _ _ hnd
  have happnd : ((applyPlan
      (stripSubject (planCore today s subject sid avail).ensuredDays
        (planCore today s subject sid avail).planningDates sid)
      sid (planCore today s subject sid avail).accs).map (fun d => d.date)).Nodup := by
    rw [apply_dates, hstripdates]
    exact hensnd
  have hsorted : findDay (planCore today s subject sid avail).finalDays d =
      findDay (applyPlan
        (stripSubject (planCore today s subject sid avail).ensuredDays
          (planCore today s subject sid avail).planningDates sid)
        sid (planCore today s subject sid avail).accs) d := by
    rw [planCore_finalDays]
    exact findDay_perm_nodup _ _ (List.perm_insertionSort dayLE _) happnd d
  rw [hsorted]
  rcases hfa : (planCore today s subject sid avail).accs.find? (fun a => a.date == d)
    with _ | acc
  all_goals simp only [hfa]
  · have hnotin : ∀ acc2 ∈ (planCore today s subject sid avail).accs, acc2.date ≠ d := by
      intro acc2 hacc2 hd2
      have hall := List.find?_eq_none.mp hfa
      exact absurd (by simp [hd2] : ((fun a => a.date == d) acc2) = true) (hall acc2 hacc2)
    rw [apply_find_not _ _ _ _ hnotin]
    have hdnotin : d ∉ (planCore today s subject sid avail).planningDates := by
      intro hdmem
      rw [← planCore_accs_dates] at hdmem
      rcases List.mem_map.mp hdmem with ⟨acc2, hacc2, hda⟩
      exact hnotin acc2 hacc2 hda
    rw [strip_find_not_mem _ _ _ _ hdnotin]
  · have hnodupacc : ((planCore today s subject sid avail).accs.map (fun a => a.date)).Nodup := by
      rw [planCore_accs_dates]
      exact planCore_planningDates_nodup today s subject sid avail
    rw [apply_find_mem _ _ _ _ acc hnodupacc hfa]
    have hdmem : d ∈ (planCore today s subject sid avail).planningDates := by
      rw [← planCore_accs_dates]
      have hmem := List.mem_of_find?_eq_some hfa
      have hpd := List.find?_some hfa
      refine List.mem_map.mpr ⟨acc, hmem, ?_⟩
      simpa using hpd
    rw [strip_find_mem _ _ _ _ (planCore_planningDates_nodup today s subject sid avail) hdmem]
    rw [Option.map_map]
    rfl



/-- C5 amended: on every planning day touched by a run (every day whose date
carries a greedy accumulator), a previously-present `completedLectures`
entry is kept if and only if its lectureId is among the lectureIds NEWLY
assigned to that day in this run or the entry is revision-flagged; presence
among the day's full post-run `targetLectures` (for example another
subject's still-targeted entries) does not protect it, as the C5
counterexample shows. -/
theorem C5_amended (today : Int) (s : StudyState) (sid : String) (c : PlanCore)
    (hnd : (s.studyDays.map (fun d => d.date)).Nodup)
    (hc : planCoreOpt today s sid = some c)
    (day : StudyDay) (hmem : day ∈ s.studyDays)
    (acc : DayAcc) (hacc : c.accs.find? (fun a => a.date == day.date) = some acc) :
    ∃ day2, findDay (planStateD today s sid).studyDays day.date = some day2 ∧
      day2.completedLectures = day.completedLectures.filter (fun e =>
        (acc.assigned.map (fun p => p.lectureId)).contains e.lectureId || e.isRevision) := by
  unfold planCoreOpt at hc
  rcases hsub : s.subjects.find? (fun x => x.id == sid) with _ | subject
  · rw [hsub] at hc
    cases hc
  · rw [hsub] at hc
    dsimp only at hc
    rcases hne : (availableFor s sid).isEmpty with _ | _
    · rw [hne] at hc
      simp only [Bool.false_eq_true, if_false] at hc
      have hceq : c = planCore today s subject sid (availableFor s sid) :=
        (Option.some.inj hc).symm
      subst hceq
      have hstate : planStateD today s sid =
          { s with
            studyDays := (planCore today s subject sid (availableFor s sid)).finalDays } := by
        unfold planStateD generateSubjectPlan
        rw [hsub]
        simp only [hne, Bool.false_eq_true, if_false]
      rw [hstate]
      have hchar := planCore_find_char today s subject sid (availableFor s sid) hnd day.date
      rw [hacc] at hchar
      dsimp only at hchar
      have hsfind : findDay s.studyDays day.date = some day :=
        findDay_of_mem_nodup s.studyDays hnd day hmem
      have hensfind : findDay
          (planCore today s subject sid (availableFor s sid)).ensuredDays day.date = some day := by
        rcases buildDays_spec2 s.studyDays today
          (planCore today s subject sid (availableFor s sid)).endDay
          with ⟨ext, hens, _, _, _, _⟩
        rw [planCore_ensuredDays, hens]
        exact findDay_append_left s.studyDays ext day.date day hsfind
      rw [hensfind] at hchar
      refine ⟨mergeDay sid acc (removeSubjectTargets day sid), hchar, ?_⟩
      rw [mergeDay_completed]
      rfl
    · rw [hne] at hc
      simp only [if_true] at hc
      cases hc

/-- C5 witness: the amended statement at `c5State`, whose planning day 0 is
touched by the run. -/
theorem C5_amended_witness :
    ∃ day2, findDay (planStateD 0 c5State "A").studyDays c5Day.date = some day2 ∧
      day2.completedLectures = c5Day.completedLectures.filter (fun e =>
        (((((planCoreOpt 0 c5State "A").getD emptyCore).accs.find?
              (fun a => a.date == c5Day.date)).getD
            { date := 0, assigned := [], minutes := 0 }).assigned.map
          (fun p => p.lectureId)).contains e.lectureId || e.isRevision) :=
  C5_amended 0 c5State "A" ((planCoreOpt 0 c5State "A").getD emptyCore)
    (by decide) (by with_unfolding_all rfl) c5Day (List.mem_cons_self c5Day [])
    ((((planCoreOpt 0 c5State "A").getD emptyCore).accs.find?
        (fun a => a.date == c5Day.date)).getD { date := 0, assigned := [], minutes := 0 })
    (by with_unfolding_all rfl)

theorem getE_date (days0 : List StudyDay) (d : Int) :
    ((findDay days0 d).getD (freshDay d)).date = d := by
  rcases hfd : findDay days0 d with _ | day
  · rfl
  · have hfd2 : List.find? (fun z => z.date == d) days0 = some day := hfd
    simpa using List.find?_some hfd2

theorem strip_pairRD (day : StudyDay) (sid : String) :
    pairRD (removeSubjectTargets day sid) = pairRD day := rfl

theorem merge_pairRD (sid : String) (acc : DayAcc) (day : StudyDay) :
    pairRD (mergeDay sid acc day) = pairRD day := by
  show (((mergeDay sid acc day).date, (mergeDay sid acc day).isRestDay) : Int × Bool) =
    (day.date, day.isRestDay)
  rw [mergeDay_date, mergeDay_isRestDay]

theorem pairRD_dates (l1 l2 : List StudyDay) (h : l1.map pairRD = l2.map pairRD) :
    l1.map (fun d => d.date) = l2.map (fun d => d.date) := by
  have h2 := congrArg (List.map Prod.fst) h
  rw [List.map_map, List.map_map] at h2
  exact h2

theorem pairRD_length (l1 l2 : List StudyDay) (h : l1.map pairRD = l2.map pairRD) :
    l1.length = l2.length := by
  have h2 := congrArg List.length h
  rwa [List.length_map, List.length_map] at h2

theorem pairRD_filter (l1 : List StudyDay) : ∀ l2 : List StudyDay,
    l1.map pairRD = l2.map pairRD →
    (l1.filter (fun day => !day.isRestDay)).map pairRD =
      (l2.filter (fun day => !day.isRestDay)).map pairRD ∧
    (l1.filter (fun day => !day.isRestDay)).isEmpty =
      (l2.filter (fun day => !day.isRestDay)).isEmpty := by
  induction l1 with
  | nil =>
    intro l2 h
    cases l2 with
    | nil => exact ⟨rfl, rfl⟩
    | cons b bs => cases h
  | cons a as ih =>
    intro l2 h
    cases l2 with
    | nil => cases h
    | cons b bs =>
      rw [List.map_cons, List.map_cons] at h
      have hab : pairRD a = pairRD b := by
        injection h
      have htail : as.map pairRD = bs.map pairRD := by
        injection h
      have hr : a.isRestDay = b.isRestDay := congrArg Prod.snd hab
      rcases ih bs htail with ⟨t1, t2⟩
      rw [List.filter_cons, List.filter_cons, hr]
      rcases hb : (!b.isRestDay) with _ | _
      · rw [if_neg Bool.false_ne_true, if_neg Bool.false_ne_true]
        exact ⟨t1, t2⟩
      · rw [if_pos rfl, if_pos rfl]
        refine ⟨?_, rfl⟩
        rw [List.map_cons, List.map_cons, hab, t1]

theorem planning_pairRD (l1 l2 : List StudyDay) (h : l1.map pairRD = l2.map pairRD) :
    ((if (l1.filter (fun day => !day.isRestDay)).isEmpty then l1
      else l1.filter (fun day => !day.isRestDay)).map pairRD) =
    ((if (l2.filter (fun day => !day.isRestDay)).isEmpty then l2
      else l2.filter (fun day => !day.isRestDay)).map pairRD) := by
  rcases pairRD_filter l1 l2 h with ⟨hf, he⟩
  rw [he]
  split
  · exact h
  · exact hf

theorem rangeDays_pairRD (days0 days1 : List StudyDay) (today endDay : Int)
    (h : ∀ i : Nat, i < (endDay - today + 1).toNat →
      pairRD ((findDay days1 (today + (i : Int))).getD (freshDay (today + (i : Int)))) =
        pairRD ((findDay days0 (today + (i : Int))).getD (freshDay (today + (i : Int))))) :
    (buildDays days1 today endDay).2.map pairRD =
      (buildDays days0 today endDay).2.map pairRD := by
  rcases buildDays_spec2 days0 today endDay with ⟨_, _, _, _, _, hr0⟩
  rcases buildDays_spec2 days1 today endDay with ⟨_, _, _, _, _, hr1⟩
  rw [hr0, hr1, List.map_map, List.map_map]
  refine List.map_congr_left ?_
  intro i hi
  exact h i (List.mem_range.mp hi)

theorem buildDays_find_total (days0 : List StudyDay) (today endDay : Int) (d : Int)
    (hpresent : ∀ i : Nat, i < (endDay - today + 1).toNat →
        (findDay days0 (today + (i : Int))).isSome = true) :
    findDay (buildDays days0 today endDay).1 d = findDay days0 d := by
  rcases buildDays_spec2 days0 today endDay with ⟨ext, hens, hext, _, hfind, _⟩
  by_cases hdr : ∃ i : Nat, i < (endDay - today + 1).toNat ∧ d = today + (i : Int)
  · rcases hdr with ⟨i, hi, hdi⟩
    subst hdi
    rw [hfind i hi]
    rcases hfd : findDay days0 (today + (i : Int)) with _ | x
    · have := hpresent i hi
      rw [hfd] at this
      cases this
    · rfl
  · rcases hfd : findDay days0 d with _ | x
    · rw [hens, findDay, List.find?_append]
      have h0 : List.find? (fun day => day.date == d) days0 = none := hfd
      have h2 : List.find? (fun day => day.date == d) ext = none := by
        refine List.find?_eq_none.mpr ?_
        intro day hday hpd
        rcases hext day hday with ⟨_, _, i, hi, hdi⟩
        have hdd : day.date = d := by simpa using hpd
        exact hdr ⟨i, hi, by rw [← hdd, hdi]⟩
      rw [h0, h2]
      rfl
    · rw [hens]
      rw [findDay_append_left days0 ext d x hfd]

theorem projDA_findIdx (maxL : Option Nat) (est : ℚ) :
    ∀ (l1 l2 : List DayAcc) (i : Nat), l1.map projDA = l2.map projDA →
      List.findIdx? (fun acc => capOkLectures maxL acc.assigned.length &&
        capOkMinutes none acc.minutes est) l1 i =
      List.findIdx? (fun acc => capOkLectures maxL acc.assigned.length &&
        capOkMinutes none acc.minutes est) l2 i := by
  intro l1
  induction l1 with
  | nil =>
    intro l2 i h
    cases l2 with
    | nil => rfl
    | cons b bs => cases h
  | cons a as ih =>
    intro l2 i h
    cases l2 with
    | nil => cases h
    | cons b bs =>
      rw [List.map_cons, List.map_cons] at h
      have hab : projDA a = projDA b := by injection h
      have htail : as.map projDA = bs.map projDA := by injection h
      have hassigned : a.assigned = b.assigned := congrArg Prod.snd hab
      have h1 : capOkMinutes none a.minutes est = true := rfl
      have h2 : capOkMinutes none b.minutes est = true := rfl
      simp only [List.findIdx?_cons]
      rw [h1, h2, hassigned, ih bs (i + 1) htail]

theorem projDA_getD (d0 : DayAcc) :
    ∀ (l1 l2 : List DayAcc) (i : Nat), l1.map projDA = l2.map projDA →
      projDA (l1.getD i d0) = projDA (l2.getD i d0) := by
  intro l1
  induction l1 with
  | nil =>
    intro l2 i h
    cases l2 with
    | nil => rfl
    | cons b bs => cases h
  | cons a as ih =>
    intro l2 i h
    cases l2 with
    | nil => cases h
    | cons b bs =>
      rw [List.map_cons, List.map_cons] at h
      have hab : projDA a = projDA b := by injection h
      have htail : as.map projDA = bs.map projDA := by injection h
      cases i with
      | zero => exact hab
      | succ n => exact ih bs n htail

theorem projDA_modifyIdx (f1 f2 : DayAcc → DayAcc)
    (hf : ∀ a b, projDA a = projDA b → projDA (f1 a) = projDA (f2 b)) :
    ∀ (l1 l2 : List DayAcc) (i : Nat), l1.map projDA = l2.map projDA →
      (modifyIdx f1 l1 i).map projDA = (modifyIdx f2 l2 i).map projDA := by
  intro l1
  induction l1 with
  | nil =>
    intro l2 i h
    cases l2 with
    | nil => rfl
    | cons b bs => cases h
  | cons a as ih =>
    intro l2 i h
    cases l2 with
    | nil => cases h
    | cons b bs =>
      rw [List.map_cons, List.map_cons] at h
      have hab : projDA a = projDA b := by injection h
      have htail : as.map projDA = bs.map projDA := by injection h
      cases i with
      | zero =>
        show (f1 a :: as).map projDA = (f2 b :: bs).map projDA
        rw [List.map_cons, List.map_cons, hf a b hab, htail]
      | succ n =>
        show (a :: modifyIdx f1 as n).map projDA = (b :: modifyIdx f2 bs n).map projDA
        rw [List.map_cons, List.map_cons, hab, ih bs n htail]

theorem accsFind_proj (d : Int) : ∀ (l1 l2 : List DayAcc), l1.map projDA = l2.map projDA →
    (l1.find? (fun a => a.date == d)).map projDA =
      (l2.find? (fun a => a.date == d)).map projDA := by
  intro l1
  induction l1 with
  | nil =>
    intro l2 h
    cases l2 with
    | nil => rfl
    | cons b bs => cases h
  | cons a as ih =>
    intro l2 h
    cases l2 with
    | nil => cases h
    | cons b bs =>
      rw [List.map_cons, List.map_cons] at h
      have hab : projDA a = projDA b := by injection h
      have htail : as.map projDA = bs.map projDA := by injection h
      have hdate : a.date = b.date := congrArg Prod.fst hab
      rw [List.find?_cons, List.find?_cons, hdate]
      rcases hb : (b.date == d) with _ | _
      · exact ih bs htail
      · show some (projDA a) = some (projDA b)
        rw [hab]

theorem assignStep_proj (sid : String) (maxL : Option Nat) (lec : Lecture)
    (accs1 accs2 : List DayAcc) (b : Bool)
    (hp : accs1.map projDA = accs2.map projDA) :
    (assignStep sid maxL none (accs1, b) lec).1.map projDA =
      (assignStep sid maxL none (accs2, b) lec).1.map projDA ∧
    (assignStep sid maxL none (accs1, b) lec).2 =
      (assignStep sid maxL none (accs2, b) lec).2 := by
  have hidx : List.findIdx? (fun acc => capOkLectures maxL acc.assigned.length &&
        capOkMinutes none acc.minutes lec.estimatedMinutes) accs1 0 =
      List.findIdx? (fun acc => capOkLectures maxL acc.assigned.length &&
        capOkMinutes none acc.minutes lec.estimatedMinutes) accs2 0 :=
    projDA_findIdx maxL lec.estimatedMinutes accs1 accs2 0 hp
  unfold assignStep
  dsimp only
  rw [hidx]
  have hch : projDA (accs1.getD ((List.findIdx? (fun acc =>
        capOkLectures maxL acc.assigned.length &&
        capOkMinutes none acc.minutes lec.estimatedMinutes) accs2 0).getD 0)
        { date := 0, assigned := [], minutes := 0 }) =
      projDA (accs2.getD ((List.findIdx? (fun acc =>
        capOkLectures maxL acc.assigned.length &&
        capOkMinutes none acc.minutes lec.estimatedMinutes) accs2 0).getD 0)
        { date := 0, assigned := [], minutes := 0 }) :=
    projDA_getD { date := 0, assigned := [], minutes := 0 } accs1 accs2 _ hp
  have hassigned : (accs1.getD ((List.findIdx? (fun acc =>
        capOkLectures maxL acc.assigned.length &&
        capOkMinutes none acc.minutes lec.estimatedMinutes) accs2 0).getD 0)
        { date := 0, assigned := [], minutes := 0 }).assigned =
      (accs2.getD ((List.findIdx? (fun acc =>
        capOkLectures maxL acc.assigned.length &&
        capOkMinutes none acc.minutes lec.estimatedMinutes) accs2 0).getD 0)
        { date := 0, assigned := [], minutes := 0 }).assigned :=
    congrArg Prod.snd hch
  rw [hassigned]
  refine ⟨?_, rfl⟩
  refine projDA_modifyIdx _ _ ?_ accs1 accs2 _ hp
  intro x y hxy
  have hd : x.date = y.date := congrArg Prod.fst hxy
  have ha : x.assigned = y.assigned := congrArg Prod.snd hxy
  show ((x.date, _) : Int × List PlannedLecture) = (y.date, _)
  rw [hd, ha]

theorem assignFold_proj (sid : String) (maxL : Option Nat) :
    ∀ (lectures : List Lecture) (accs1 accs2 : List DayAcc) (b : Bool),
      accs1.map projDA = accs2.map projDA →
      (lectures.foldl (assignStep sid maxL none) (accs1, b)).1.map projDA =
        (lectures.foldl (assignStep sid maxL none) (accs2, b)).1.map projDA ∧
      (lectures.foldl (assignStep sid maxL none) (accs1, b)).2 =
        (lectures.foldl (assignStep sid maxL none) (accs2, b)).2 := by
  intro lectures
  induction lectures with
  | nil => intro accs1 accs2 b hp; exact ⟨hp, rfl⟩
  | cons lec rest ih =>
    intro accs1 accs2 b hp
    rw [List.foldl_cons, List.foldl_cons]
    have h1 : assignStep sid maxL none (accs1, b) lec =
        ((assignStep sid maxL none (accs1, b) lec).1,
         (assignStep sid maxL none (accs1, b) lec).2) := rfl
    have h2 : assignStep sid maxL none (accs2, b) lec =
        ((assignStep sid maxL none (accs2, b) lec).1,
         (assignStep sid maxL none (accs2, b) lec).2) := rfl
    rw [h1, h2]
    rcases assignStep_proj sid maxL lec accs1 accs2 b hp with ⟨hpp, hbb⟩
    rw [hbb]
    exact ih _ _ _ hpp

theorem initAccs_proj (days1 days2 : List StudyDay) (dates : List Int) :
    (initAccs days1 dates).map projDA = (initAccs days2 dates).map projDA := by
  unfold initAccs
  rw [List.map_map, List.map_map]
  refine List.map_congr_left ?_
  intro d _
  rfl

theorem initAccs_assigned (days : List StudyDay) (dates : List Int) :
    ∀ acc ∈ initAccs days dates, acc.assigned = [] := by
  intro acc hacc
  rcases List.mem_map.mp hacc with ⟨d, _, hd⟩
  rw [← hd]

theorem assignStep_assigned_inv (sid : String) (maxL : Option Nat) (maxM : Option ℚ)
    (st : List DayAcc × Bool) (lec : Lecture)
    (hinv : ∀ acc ∈ st.1, ∀ p ∈ acc.assigned, p.subjectId = sid ∧ p.isRevision = false) :
    ∀ acc ∈ (assignStep sid maxL maxM st lec).1, ∀ p ∈ acc.assigned,
      p.subjectId = sid ∧ p.isRevision = false := by
  intro acc hacc p hp
  unfold assignStep at hacc
  dsimp only at hacc
  rcases modifyIdx_mem _ st.1 _ acc hacc with h | ⟨hlt, hfx⟩
  · exact hinv acc h p hp
  · rw [hfx] at hp
    dsimp only at hp
    rcases List.mem_append.mp hp with h1 | h2
    · exact hinv _ (List.get_mem st.1 _ _) p h1
    · have hpp := List.mem_singleton.mp h2
      rw [hpp]
      exact ⟨rfl, rfl⟩

theorem assignFold_assigned_inv (sid : String) (maxL : Option Nat) (maxM : Option ℚ) :
    ∀ (lectures : List Lecture) (accs : List DayAcc) (b : Bool),
      (∀ acc ∈ accs, ∀ p ∈ acc.assigned, p.subjectId = sid ∧ p.isRevision = false) →
      ∀ acc ∈ (lectures.foldl (assignStep sid maxL maxM) (accs, b)).1,
        ∀ p ∈ acc.assigned, p.subjectId = sid ∧ p.isRevision = false := by
  intro lectures
  induction lectures with
  | nil => intro accs b hinv; exact hinv
  | cons lec rest ih =>
    intro accs b hinv
    rw [List.foldl_cons]
    have hpair : assignStep sid maxL maxM (accs, b) lec =
        ((assignStep sid maxL maxM (accs, b) lec).1,
         (assignStep sid maxL maxM (accs, b) lec).2) := rfl
    rw [hpair]
    exact ih _ _ (assignStep_assigned_inv sid maxL maxM (accs, b) lec hinv)

theorem filter_idem {α : Type} (p : α → Bool) (l : List α) :
    (l.filter p).filter p = l.filter p := by
  induction l with
  | nil => rfl
  | cons a as ih =>
    rcases hb : p a with _ | _
    · have hna : ¬(p a = true) := by
        rw [hb]
        exact Bool.false_ne_true
      rw [List.filter_cons, if_neg hna]
      exact ih
    · rw [List.filter_cons, if_pos hb, List.filter_cons, if_pos hb, ih]

theorem filter_all_false {α : Type} (p : α → Bool) : ∀ l : List α,
    (∀ x ∈ l, p x = false) → l.filter p = [] := by
  intro l
  induction l with
  | nil => intro h; rfl
  | cons a as ih =>
    intro h
    have hna : ¬(p a = true) := by
      rw [h a (List.mem_cons_self a as)]
      exact Bool.false_ne_true
    rw [List.filter_cons, if_neg hna]
    exact ih (fun x hx => h x (List.mem_cons_of_mem a hx))

theorem planCore_endDay (today : Int) (s : StudyState) (subject : Subject) (sid : String)
    (avail : List Lecture) :
    (planCore today s subject sid avail).endDay =
      (if today < subject.examDate - (subject.reservedRevisionDays : Int)
       then subject.examDate - (subject.reservedRevisionDays : Int)
       else today + max ((avail.length : Int) - 1) 0) := rfl

theorem planCore_newAverage (today : Int) (s : StudyState) (subject : Subject) (sid : String)
    (avail : List Lecture) :
    (planCore today s subject sid avail).newAverage =
      (avail.length : ℚ) /
        (max 1 (planCore today s subject sid avail).planningDays.length : ℚ) := rfl

theorem planCore_finalDays_nodup (today : Int) (s : StudyState) (subject : Subject)
    (sid : String) (avail : List Lecture)
    (hnd : (s.studyDays.map (fun d => d.date)).Nodup) :
    ((planCore today s subject sid avail).finalDays.map (fun d => d.date)).Nodup := by
  have hperm : (planCore today s subject sid avail).finalDays.Perm
      (applyPlan (stripSubject (planCore today s subject sid avail).ensuredDays
        (planCore today s subject sid avail).planningDates sid) sid
        (planCore today s subject sid avail).accs) := by
    rw [planCore_finalDays]
    exact List.perm_insertionSort dayLE _
  have hmap := hperm.map (fun d => d.date)
  rw [hmap.nodup_iff]
  rw [apply_dates, strip_dates, planCore_ensuredDays]
  exact buildDays_nodup _ _ _ hnd

theorem planningDates_range (today : Int) (s : StudyState) (subject : Subject) (sid : String)
    (avail : List Lecture) (d : Int)
    (hd : d ∈ (planCore today s subject sid avail).planningDates) :
    ∃ i : Nat, i < ((planCore today s subject sid avail).endDay - today + 1).toNat ∧
      d = today + (i : Int) := by
  rw [planCore_planningDates] at hd
  rcases List.mem_map.mp hd with ⟨day, hday, hdd⟩
  have hday2 : day ∈ (planCore today s subject sid avail).rangeDays := by
    rw [planCore_planningDays] at hday
    by_cases hc : ((planCore today s subject sid avail).rangeDays.filter
        (fun day => !day.isRestDay)).isEmpty = true
    · rw [if_pos hc] at hday
      exact hday
    · rw [if_neg hc] at hday
      exact List.mem_of_mem_filter hday
  rw [planCore_rangeDays] at hday2
  rcases buildDays_spec2 s.studyDays today (planCore today s subject sid avail).endDay
    with ⟨_, _, _, _, _, hr⟩
  rw [hr] at hday2
  rcases List.mem_map.mp hday2 with ⟨i, hi, hdayi⟩
  refine ⟨i, List.mem_range.mp hi, ?_⟩
  rw [← hdd, ← hdayi]
  exact getE_date s.studyDays (today + (i : Int))

theorem planCore_range_total (today : Int) (s : StudyState) (subject : Subject) (sid : String)
    (avail : List Lecture) (hnd : (s.studyDays.map (fun d => d.date)).Nodup)
    (i : Nat) (hi : i < ((planCore today s subject sid avail).endDay - today + 1).toNat) :
    ∃ F, findDay (planCore today s subject sid avail).finalDays (today + (i : Int)) = some F ∧
      pairRD F = pairRD ((findDay s.studyDays (today + (i : Int))).getD
        (freshDay (today + (i : Int)))) := by
  rcases buildDays_spec2 s.studyDays today (planCore today s subject sid avail).endDay
    with ⟨_, _, _, _, hfind, _⟩
  have hens : findDay (planCore today s subject sid avail).ensuredDays (today + (i : Int)) =
      some ((findDay s.studyDays (today + (i : Int))).getD (freshDay (today + (i : Int)))) := by
    rw [planCore_ensuredDays]
    exact hfind i hi
  have hchar := planCore_find_char today s subject sid avail hnd (today + (i : Int))
  rcases hfa : (planCore today s subject sid avail).accs.find?
      (fun a => a.date == today + (i : Int)) with _ | acc
  · simp only [hfa] at hchar
    rw [hens] at hchar
    exact ⟨_, hchar, rfl⟩
  · simp only [hfa] at hchar
    have hchar2 : findDay (planCore today s subject sid avail).finalDays (today + (i : Int)) =
        some (mergeDay sid acc (removeSubjectTargets
          ((findDay s.studyDays (today + (i : Int))).getD
            (freshDay (today + (i : Int)))) sid)) := by
      rw [hchar, hens]
      rfl
    refine ⟨_, hchar2, ?_⟩
    rw [merge_pairRD, strip_pairRD]

theorem planCore_rerun_days (today : Int) (s s1 : StudyState) (subject : Subject)
    (sid : String) (A : List Lecture)
    (hnd : (s.studyDays.map (fun d => d.date)).Nodup)
    (hdays : s1.studyDays = (planCore today s subject sid A).finalDays) :
    (planCore today s1 subject sid A).endDay = (planCore today s subject sid A).endDay ∧
    (planCore today s1 subject sid A).planningDays.map pairRD =
      (planCore today s subject sid A).planningDays.map pairRD ∧
    (planCore today s1 subject sid A).planningDates =
      (planCore today s subject sid A).planningDates ∧
    (∀ d : Int, findDay (planCore today s1 subject sid A).ensuredDays d =
      findDay s1.studyDays d) := by
  have hend : (planCore today s1 subject sid A).endDay =
      (planCore today s subject sid A).endDay := rfl
  have hpresent : ∀ i : Nat,
      i < ((planCore today s subject sid A).endDay - today + 1).toNat →
      (findDay s1.studyDays (today + (i : Int))).isSome = true := by
    intro i hi
    rcases planCore_range_total today s subject sid A hnd i hi with ⟨F, hF, _⟩
    rw [hdays, hF]
    rfl
  have hrangepair : (planCore today s1 subject sid A).rangeDays.map pairRD =
      (planCore today s subject sid A).rangeDays.map pairRD := by
    rw [planCore_rangeDays, planCore_rangeDays, hend]
    refine rangeDays_pairRD s.studyDays s1.studyDays today
      (planCore today s subject sid A).endDay ?_
    intro i hi
    rcases planCore_range_total today s subject sid A hnd i hi with ⟨F, hF, hFp⟩
    rw [hdays, hF]
    exact hFp
  have hplan : (planCore today s1 subject sid A).planningDays.map pairRD =
      (planCore today s subject sid A).planningDays.map pairRD := by
    rw [planCore_planningDays, planCore_planningDays]
    exact planning_pairRD _ _ hrangepair
  refine ⟨hend, hplan, ?_, ?_⟩
  · rw [planCore_planningDates, planCore_planningDates]
    exact pairRD_dates _ _ hplan
  · intro d
    rw [planCore_ensuredDays, hend]
    exact buildDays_find_total s1.studyDays today (planCore today s subject sid A).endDay d
      (fun i hi => hpresent i hi)

theorem availableFor_congr (s1 s2 : StudyState) (sid : String)
    (h : s1.lectures = s2.lectures) : availableFor s1 sid = availableFor s2 sid := by
  unfold availableFor
  rw [h]

theorem planStateD_shape (today : Int) (s : StudyState) (sid : String) :
    ∃ days, planStateD today s sid = { s with studyDays := days } := by
  unfold planStateD generateSubjectPlan
  rcases hsub : s.subjects.find? (fun x => x.id == sid) with _ | subject
  · simp only [hsub]
    exact ⟨s.studyDays, rfl⟩
  · simp only [hsub]
    rcases hne : (availableFor s sid).isEmpty with _ | _
    · simp only [hne, Bool.false_eq_true, if_false]
      exact ⟨_, rfl⟩
    · simp only [hne, eq_self_iff_true, if_true]
      exact ⟨s.studyDays, rfl⟩

theorem planState_fields (today : Int) (s : StudyState) (sid : String) :
    (planStateD today s sid).subjects = s.subjects ∧
    (planStateD today s sid).lectures = s.lectures ∧
    (planStateD today s sid).settings = s.settings := by
  rcases planStateD_shape today s sid with ⟨days, h⟩
  rw [h]
  exact ⟨rfl, rfl, rfl⟩

theorem planStateD_run (today : Int) (s : StudyState) (sid : String) (subject : Subject)
    (hsub : s.subjects.find? (fun x => x.id == sid) = some subject)
    (hne : (availableFor s sid).isEmpty = false) :
    planStateD today s sid =
      { s with studyDays :=
          (planCore today s subject sid (availableFor s sid)).finalDays } := by
  unfold planStateD generateSubjectPlan
  rw [hsub]
  simp only [hne, Bool.false_eq_true, if_false]

theorem planAverageD_run (today : Int) (s : StudyState) (sid : String) (subject : Subject)
    (hsub : s.subjects.find? (fun x => x.id == sid) = some subject)
    (hne : (availableFor s sid).isEmpty = false) :
    planAverageD today s sid =
      (planCore today s subject sid (availableFor s sid)).newAverage := by
  unfold planAverageD generateSubjectPlan
  rw [hsub]
  simp only [hne, Bool.false_eq_true, if_false]

theorem planStateD_noPending (today : Int) (s : StudyState) (sid : String) (subject : Subject)
    (hsub : s.subjects.find? (fun x => x.id == sid) = some subject)
    (hne : (availableFor s sid).isEmpty = true) :
    planStateD today s sid = s := by
  unfold planStateD generateSubjectPlan
  rw [hsub]
  simp only [hne, eq_self_iff_true, if_true]

theorem planAverageD_noPending (today : Int) (s : StudyState) (sid : String) (subject : Subject)
    (hsub : s.subjects.find? (fun x => x.id == sid) = some subject)
    (hne : (availableFor s sid).isEmpty = true) :
    planAverageD today s sid = 0 := by
  unfold planAverageD generateSubjectPlan
  rw [hsub]
  simp only [hne, eq_self_iff_true, if_true]

theorem strip_targets (day : StudyDay) (sid : String) :
    (removeSubjectTargets day sid).targetLectures =
      day.targetLectures.filter (fun t => t.subjectId != sid || t.isRevision) := rfl

theorem planCore_rerun_targets (today : Int) (s s1 : StudyState) (subject : Subject)
    (sid : String) (A : List Lecture)
    (hnd : (s.studyDays.map (fun d => d.date)).Nodup)
    (hset : s1.settings = s.settings)
    (hdays : s1.studyDays = (planCore today s subject sid A).finalDays)
    (hmm : s.settings.maxMinutesPerDay = none) :
    ∀ d : Int,
      (findDay (planCore today s1 subject sid A).finalDays d).map
          (fun x => x.targetLectures) =
        (findDay (planCore today s subject sid A).finalDays d).map
          (fun x => x.targetLectures) := by
  rcases planCore_rerun_days today s s1 subject sid A hnd hdays with ⟨_, _, hpdates, hensfd⟩
  have hnd1 : (s1.studyDays.map (fun d => d.date)).Nodup := by
    rw [hdays]
    exact planCore_finalDays_nodup today s subject sid A hnd
  have haccs : (planCore today s1 subject sid A).accs.map projDA =
      (planCore today s subject sid A).accs.map projDA := by
    rw [planCore_accs, planCore_accs, hset, hmm, hpdates]
    unfold assignLectures
    exact (assignFold_proj sid s.settings.maxLecturesPerDay A _ _ false
      (initAccs_proj _ _ _)).1
  have hinv1 : ∀ acc ∈ (planCore today s subject sid A).accs, ∀ p ∈ acc.assigned,
      p.subjectId = sid ∧ p.isRevision = false := by
    rw [planCore_accs]
    unfold assignLectures
    refine assignFold_assigned_inv sid _ _ A _ false ?_
    intro acc hacc p hp
    rw [initAccs_assigned _ _ acc hacc] at hp
    cases hp
  intro d
  have hchar1 := planCore_find_char today s subject sid A hnd d
  have hchar2 := planCore_find_char today s1 subject sid A hnd1 d
  have hfp := accsFind_proj d _ _ haccs
  rcases hfa1 : (planCore today s subject sid A).accs.find? (fun a => a.date == d)
    with _ | acc1
  · rw [hfa1] at hfp
    have hfa2 : (planCore today s1 subject sid A).accs.find? (fun a => a.date == d) =
        none := by
      rcases hx : (planCore today s1 subject sid A).accs.find? (fun a => a.date == d)
        with _ | acc2
      · exact hx
      · rw [hx] at hfp
        have h2 : (some (projDA acc2) : Option (Int × List PlannedLecture)) = none := hfp
        cases h2
    simp only [hfa2] at hchar2
    rw [hchar2, hensfd d, hdays]
  · rw [hfa1] at hfp
    rcases hx2 : (planCore today s1 subject sid A).accs.find? (fun a => a.date == d)
      with _ | acc2
    · rw [hx2] at hfp
      have h2 : (none : Option (Int × List PlannedLecture)) = some (projDA acc1) := hfp
      cases h2
    · rw [hx2] at hfp
      have hproj : projDA acc2 = projDA acc1 := by
        have h2 : (some (projDA acc2) : Option (Int × List PlannedLecture)) =
            some (projDA acc1) := hfp
        exact Option.some.inj h2
      have hassigned : acc2.assigned = acc1.assigned := congrArg Prod.snd hproj
      have hdmem : d ∈ (planCore today s subject sid A).planningDates := by
        rw [← planCore_accs_dates]
        refine List.mem_map.mpr ⟨acc1, List.mem_of_find?_eq_some hfa1, ?_⟩
        have hpd := List.find?_some hfa1
        simpa using hpd
      rcases planningDates_range today s subject sid A d hdmem with ⟨i, hi, hdi⟩
      rcases buildDays_spec2 s.studyDays today (planCore today s subject sid A).endDay
        with ⟨_, _, _, _, hfind1, _⟩
      have hens1 : findDay (planCore today s subject sid A).ensuredDays d =
          some ((findDay s.studyDays d).getD (freshDay d)) := by
        rw [planCore_ensuredDays, hdi]
        exact hfind1 i hi
      simp only [hfa1] at hchar1
      simp only [hx2] at hchar2
      have hF1 : findDay (planCore today s subject sid A).finalDays d =
          some (mergeDay sid acc1 (removeSubjectTargets
            ((findDay s.studyDays d).getD (freshDay d)) sid)) := by
        rw [hchar1, hens1]
        rfl
      have hens2 : findDay (planCore today s1 subject sid A).ensuredDays d =
          some (mergeDay sid acc1 (removeSubjectTargets
            ((findDay s.studyDays d).getD (freshDay d)) sid)) := by
        rw [hensfd d, hdays]
        exact hF1
      have hF2 : findDay (planCore today s1 subject sid A).finalDays d =
          some (mergeDay sid acc2 (removeSubjectTargets
            (mergeDay sid acc1 (removeSubjectTargets
              ((findDay s.studyDays d).getD (freshDay d)) sid)) sid)) := by
        rw [hchar2, hens2]
        rfl
      have hmemacc1 : acc1 ∈ (planCore today s subject sid A).accs :=
        List.mem_of_find?_eq_some hfa1
      have hfilter1 : acc1.assigned.filter
          (fun t => t.subjectId != sid || t.isRevision) = [] := by
        refine filter_all_false _ acc1.assigned ?_
        intro x hx
        rcases hinv1 acc1 hmemacc1 x hx with ⟨h1, h2⟩
        rw [h1, h2]
        simp
      have hX1 : (mergeDay sid acc1 (removeSubjectTargets
          ((findDay s.studyDays d).getD (freshDay d)) sid)).targetLectures =
          ((findDay s.studyDays d).getD (freshDay d)).targetLectures.filter
            (fun t => t.subjectId != sid || t.isRevision) ++ acc1.assigned := by
        rw [mergeDay_targets, strip_targets, filter_idem]
      rw [hF1, hF2]
      simp only [Option.map_some']
      rw [mergeDay_targets, strip_targets, hX1, List.filter_append, filter_idem,
        hfilter1, List.append_nil, hassigned, filter_idem]

/-- C4 amended: with pairwise-distinct study-day dates and a resolvable
subjectId, a second planning run in immediate succession with the same
`today` reports the same newAverage as the first; when `maxMinutesPerDay` is
additionally unset, the second run also reproduces the first run's
day-to-lecture assignment (identical `targetLectures` at every date).  The
C4 counterexample shows the assignment can differ under a finite minute cap,
because the first run's `targetMinutes` persist into the second run's minute
accounting. -/
theorem C4_amended (today : Int) (s : StudyState) (sid : String)
    (hnd : (s.studyDays.map (fun d => d.date)).Nodup)
    (hres : (s.subjects.find? (fun x => x.id == sid)).isSome = true) :
    planAverageD today (planStateD today s sid) sid = planAverageD today s sid ∧
    (s.settings.maxMinutesPerDay = none → ∀ d : Int,
      (findDay (planStateD today (planStateD today s sid) sid).studyDays d).map
          (fun x => x.targetLectures) =
        (findDay (planStateD today s sid).studyDays d).map
          (fun x => x.targetLectures)) := by
  rcases Option.isSome_iff_exists.mp hres with ⟨subject, hsub⟩
  rcases planState_fields today s sid with ⟨hsubj1, hlect1, hset1⟩
  have hsub1 : (planStateD today s sid).subjects.find? (fun x => x.id == sid) =
      some subject := by
    rw [hsubj1]
    exact hsub
  have havail1 : availableFor (planStateD today s sid) sid = availableFor s sid :=
    availableFor_congr _ _ sid hlect1
  rcases hne : (availableFor s sid).isEmpty with _ | _
  · have hstate1 : planStateD today s sid =
        { s with studyDays := (planCore today s subject sid (availableFor s sid)).finalDays } :=
      planStateD_run today s sid subject hsub hne
    have hne1 : (availableFor (planStateD today s sid) sid).isEmpty = false := by
      rw [havail1]
      exact hne
    have hdays1 : (planStateD today s sid).studyDays =
        (planCore today s subject sid (availableFor s sid)).finalDays := by
      rw [hstate1]
    refine ⟨?_, ?_⟩
    · have haver1 : planAverageD today s sid =
          (planCore today s subject sid (availableFor s sid)).newAverage :=
        planAverageD_run today s sid subject hsub hne
      have haver2 : planAverageD today (planStateD today s sid) sid =
          (planCore today (planStateD today s sid) subject sid
            (availableFor (planStateD today s sid) sid)).newAverage :=
        planAverageD_run today (planStateD today s sid) sid subject hsub1 hne1
      rw [havail1] at haver2
      rcases planCore_rerun_days today s (planStateD today s sid) subject sid
        (availableFor s sid) hnd hdays1 with ⟨_, hplan, _, _⟩
      rw [haver1, haver2, planCore_newAverage, planCore_newAverage,
        pairRD_length _ _ hplan]
    · intro hmm d
      have hstate2 : planStateD today (planStateD today s sid) sid =
          { planStateD today s sid with studyDays :=
              (planCore today (planStateD today s sid) subject sid
                (availableFor (planStateD today s sid) sid)).finalDays } :=
        planStateD_run today (planStateD today s sid) sid subject hsub1 hne1
      rw [hstate2]
      dsimp only
      rw [havail1, hdays1]
      exact planCore_rerun_targets today s (planStateD today s sid) subject sid
        (availableFor s sid) hnd hset1 hdays1 hmm d
  · have hstate1 : planStateD today s sid = s :=
      planStateD_noPending today s sid subject hsub hne
    rw [hstate1, hstate1]
    exact ⟨rfl, fun _ d => rfl⟩

/-- C4 witness: the amended statement at `c2State` (unbounded caps, empty
calendar, resolvable subject with five pending lectures). -/
theorem C4_amended_witness :
    planAverageD 0 (planStateD 0 c2State "A") "A" = planAverageD 0 c2State "A" ∧
    (c2State.settings.maxMinutesPerDay = none → ∀ d : Int,
      (findDay (planStateD 0 (planStateD 0 c2State "A") "A").studyDays d).map
          (fun x => x.targetLectures) =
        (findDay (planStateD 0 c2State "A").studyDays d).map
          (fun x => x.targetLectures)) :=
  C4_amended 0 c2State "A" (by decide) (by decide)

end Study
